import Mathlib

/-
  Verification development for the nucleus speculative disassembler
  (src/disasm.cc): a shallow embedding of the AddressMap bookkeeping
  structure, the x86 instruction classifiers, the basic-block decode loop
  nucleus_disasm_bb_x86 and the per-section worklist engine
  nucleus_disasm_section, together with theorems settling the stated
  properties of the specification.

  The third-party instruction decoder (capstone) is embedded as an abstract
  decode oracle: a function from the current address and the number of
  remaining section bytes to an optional decoded instruction, constrained
  only by the interface guarantee that a decoded instruction never consumes
  more bytes than remain.  The policy layer (bb_mutate, bb_score, bb_select)
  is likewise embedded as oracle functions, per its contracts.
-/

set_option maxHeartbeats 1000000

/-! ## Architecture-level enumerations (capstone side) -/

/-- The x86 instruction identifiers that src/disasm.cc dispatches on; every
identifier not named in one of its switch statements is carried by the
catch-all constructor. -/
inductive X86InsId where
  | invalid
  | nop
  | fnop
  | mov
  | xchg
  | lea
  | int3
  | ud2
  | call
  | lcall
  | ret
  | retf
  | jmp
  | jae | ja | jbe | jb | jcxz | jecxz | je | jge | jg | jle | jl
  | jne | jno | jnp | jns | jo | jp | jrcxz | js
  | hlt | inIns | insb | insw | insd | out | outsb | outsw | outsd
  | rdmsr | wrmsr | rdpmc | rdtsc | lgdt | lldt | ltr | lmsw | clts
  | invd | invlpg | wbinvd
  | other (code : Nat)

/-- The numeric value of an instruction identifier, mirroring the fact that
capstone identifiers are integers; identifier equality in the source is
integer equality, embedded below through this injective encoding. -/
def X86InsId.code : X86InsId → Nat
  | .invalid => 0
  | .nop => 1
  | .fnop => 2
  | .mov => 3
  | .xchg => 4
  | .lea => 5
  | .int3 => 6
  | .ud2 => 7
  | .call => 8
  | .lcall => 9
  | .ret => 10
  | .retf => 11
  | .jmp => 12
  | .jae => 13
  | .ja => 14
  | .jbe => 15
  | .jb => 16
  | .jcxz => 17
  | .jecxz => 18
  | .je => 19
  | .jge => 20
  | .jg => 21
  | .jle => 22
  | .jl => 23
  | .jne => 24
  | .jno => 25
  | .jnp => 26
  | .jns => 27
  | .jo => 28
  | .jp => 29
  | .jrcxz => 30
  | .js => 31
  | .hlt => 32
  | .inIns => 33
  | .insb => 34
  | .insw => 35
  | .insd => 36
  | .out => 37
  | .outsb => 38
  | .outsw => 39
  | .outsd => 40
  | .rdmsr => 41
  | .wrmsr => 42
  | .rdpmc => 43
  | .rdtsc => 44
  | .lgdt => 45
  | .lldt => 46
  | .ltr => 47
  | .lmsw => 48
  | .clts => 49
  | .invd => 50
  | .invlpg => 51
  | .wbinvd => 52
  | .other n => 53 + n

instance : BEq X86InsId where
  beq a b := a.code == b.code

/-- Capstone semantic groups: CS_GRP_JUMP, CS_GRP_CALL, CS_GRP_RET,
CS_GRP_IRET and the rest. -/
inductive CsGroup where
  | jump
  | call
  | ret
  | iret
  | grp (code : Nat)
deriving DecidableEq

/-- Capstone x86 operand type tags (x86_op_type). -/
inductive X86OpType where
  | invalid
  | reg
  | imm
  | mem
  | fp
deriving DecidableEq

/-- Capstone x86 register identifiers: X86_REG_INVALID, the pseudo zero
register X86_REG_EIZ, and all others by number. -/
inductive X86Reg where
  | invalid
  | eiz
  | r (code : Nat)
deriving DecidableEq

/-- Memory operand expression of a capstone x86 operand (x86_op_mem). -/
structure CsX86OpMem where
  segment : X86Reg
  base    : X86Reg
  index   : X86Reg
  scale   : Int
  disp    : Int

/-- One capstone x86 operand (cs_x86_op).  The C union is embedded as a
record holding every payload field; the code only reads the payload that
matches the type tag. -/
structure CsX86Op where
  type : X86OpType
  size : Nat
  reg  : X86Reg
  imm  : Int
  fp   : Int
  mem  : CsX86OpMem

/-- One decoded instruction as reported by the capstone iterator
(cs_insn together with its cs_detail and cs_x86 parts): id, address, size,
x86 address size, printable mnemonic and operand text, semantic groups and
operand list. -/
structure CsIns where
  id        : X86InsId
  address   : Nat
  size      : Nat
  addr_size : Nat
  mnemonic  : String
  op_str    : String
  groups    : List CsGroup
  ops       : List CsX86Op

/-! ## Binary and section model (loader side)

The loader structures (loader.h) are not part of the staged sources; the
fields below are modelled from the specification: a Binary carries bits,
an architecture tag and a container format tag; a Section is a named byte
range at a base virtual address with a code or data type. -/

/-- Modelled from the spec: container format family of the loaded binary;
the disassembler only distinguishes the PE family from everything else. -/
inductive BinType where
  | auto
  | raw
  | elf
  | pe
deriving DecidableEq

/-- Modelled from the spec: architecture family tag of the loaded binary. -/
inductive BinArch where
  | x86
  | arch (code : Nat)
deriving DecidableEq

/-- Modelled from the spec: section type, code or data. -/
inductive SecType where
  | code
  | data
deriving DecidableEq

/-- Modelled from the spec: the binary-level fields the disassembler reads. -/
structure Binary where
  bits     : Nat
  type     : BinType
  arch     : BinArch
  arch_str : String

/-- Modelled from the spec: an immutable view of a contiguous byte range at
base virtual address vma.  The raw bytes themselves are not carried here:
the decode oracle embeds the function from positions to decode results. -/
structure Section where
  name    : String
  vma     : Nat
  size    : Nat
  sectype : SecType

/-! ## Instruction classifiers (src/disasm.cc lines 186..409) -/

/-- Classifier is_cs_nop_ins: architectural no-ops. -/
def is_cs_nop_ins (ins : CsIns) : Bool :=
  match ins.id with
  | .nop => true
  | .fnop => true
  | _ => false

/-- Classifier is_cs_semantic_nop_ins: the enumerated semantic no-op
patterns mov reg,reg; xchg reg,reg; lea reg,[reg+0]; lea reg,[reg+eiz*s+0]. -/
def is_cs_semantic_nop_ins (ins : CsIns) : Bool :=
  match ins.id with
  | .mov =>
    match ins.ops with
    | [o1, o2] =>
      o1.type == X86OpType.reg && o2.type == X86OpType.reg && o1.reg == o2.reg
    | _ => false
  | .xchg =>
    match ins.ops with
    | [o1, o2] =>
      o1.type == X86OpType.reg && o2.type == X86OpType.reg && o1.reg == o2.reg
    | _ => false
  | .lea =>
    match ins.ops with
    | [o1, o2] =>
      (o1.type == X86OpType.reg && o2.type == X86OpType.mem
        && o2.mem.segment == X86Reg.invalid
        && o2.mem.base == o1.reg
        && o2.mem.index == X86Reg.invalid
        && o2.mem.disp == 0)
      ||
      (o1.type == X86OpType.reg && o2.type == X86OpType.mem
        && o2.mem.segment == X86Reg.invalid
        && o2.mem.base == o1.reg
        && o2.mem.index == X86Reg.eiz
        && o2.mem.disp == 0)
    | _ => false
  | _ => false

/-- Classifier is_cs_trap_ins: int3 and ud2. -/
def is_cs_trap_ins (ins : CsIns) : Bool :=
  match ins.id with
  | .int3 => true
  | .ud2 => true
  | _ => false

/-- Classifier is_cs_cflow_group: jump, call, return and interrupt-return
groups end a basic block. -/
def is_cs_cflow_group (g : CsGroup) : Bool :=
  g == CsGroup.jump || g == CsGroup.call || g == CsGroup.ret || g == CsGroup.iret

/-- Classifier is_cs_cflow_ins: some semantic group of the instruction is a
control-flow group. -/
def is_cs_cflow_ins (ins : CsIns) : Bool :=
  ins.groups.any (fun g => is_cs_cflow_group g)

/-- Classifier is_cs_call_ins. -/
def is_cs_call_ins (ins : CsIns) : Bool :=
  match ins.id with
  | .call => true
  | .lcall => true
  | _ => false

/-- Classifier is_cs_ret_ins. -/
def is_cs_ret_ins (ins : CsIns) : Bool :=
  match ins.id with
  | .ret => true
  | .retf => true
  | _ => false

/-- Classifier is_cs_unconditional_jmp_ins. -/
def is_cs_unconditional_jmp_ins (ins : CsIns) : Bool :=
  match ins.id with
  | .jmp => true
  | _ => false

/-- Classifier is_cs_conditional_cflow_ins. -/
def is_cs_conditional_cflow_ins (ins : CsIns) : Bool :=
  match ins.id with
  | .jae => true
  | .ja => true
  | .jbe => true
  | .jb => true
  | .jcxz => true
  | .jecxz => true
  | .je => true
  | .jge => true
  | .jg => true
  | .jle => true
  | .jl => true
  | .jne => true
  | .jno => true
  | .jnp => true
  | .jns => true
  | .jo => true
  | .jp => true
  | .jrcxz => true
  | .js => true
  | .jmp => false
  | _ => false

/-- Classifier is_cs_privileged_ins. -/
def is_cs_privileged_ins (ins : CsIns) : Bool :=
  match ins.id with
  | .hlt => true
  | .inIns => true
  | .insb => true
  | .insw => true
  | .insd => true
  | .out => true
  | .outsb => true
  | .outsw => true
  | .outsd => true
  | .rdmsr => true
  | .wrmsr => true
  | .rdpmc => true
  | .rdtsc => true
  | .lgdt => true
  | .lldt => true
  | .ltr => true
  | .lmsw => true
  | .clts => true
  | .invd => true
  | .invlpg => true
  | .wbinvd => true
  | _ => false

/-- Modelled from the spec: the neutral operand type tags of the nucleus
Operand structure (insn.h is not among the staged sources). -/
inductive OpType where
  | opNone
  | reg
  | imm
  | mem
  | fp
deriving DecidableEq

/-- Translation cs_to_nucleus_op_type. -/
def cs_to_nucleus_op_type (op : X86OpType) : OpType :=
  match op with
  | .reg => OpType.reg
  | .imm => OpType.imm
  | .mem => OpType.mem
  | .fp => OpType.fp
  | .invalid => OpType.opNone

/-- The nop classification computed in the decode loop of
nucleus_disasm_bb_x86 (src/disasm.cc lines 481..486): an architectural
no-op, or a semantic no-op outside the PE format, or a trap instruction on
the PE format (Visual Studio padding conventions). -/
def loop_nop_class (bin : Binary) (ins : CsIns) : Bool :=
  is_cs_nop_ins ins
  || (is_cs_semantic_nop_ins ins && !(bin.type == BinType.pe))
  || (is_cs_trap_ins ins && (bin.type == BinType.pe))

/-! ## Concrete instructions for the format-rule scenarios -/

/-- Memory expression [r + 0] with no segment and no index. -/
def memSelfDisp0 (r : X86Reg) (scale : Int) : CsX86OpMem :=
  { segment := X86Reg.invalid, base := r, index := X86Reg.invalid
    scale := scale, disp := 0 }

/-- Memory expression [r + eiz*scale + 0] with no segment. -/
def memSelfEiz (r : X86Reg) (scale : Int) : CsX86OpMem :=
  { segment := X86Reg.invalid, base := r, index := X86Reg.eiz
    scale := scale, disp := 0 }

/-- Register operand of a given register. -/
def regOperand (r : X86Reg) : CsX86Op :=
  { type := X86OpType.reg, size := 4, reg := r, imm := 0, fp := 0
    mem := memSelfDisp0 X86Reg.invalid 1 }

/-- Memory operand payload of a given memory expression. -/
def memOperand (m : CsX86OpMem) : CsX86Op :=
  { type := X86OpType.mem, size := 4, reg := X86Reg.invalid, imm := 0, fp := 0
    mem := m }

/-- The instruction lea r,[r+0]. -/
def leaSelfIns (r : X86Reg) (scale : Int) : CsIns :=
  { id := X86InsId.lea, address := 0, size := 3, addr_size := 4
    mnemonic := "lea", op_str := "", groups := []
    ops := [regOperand r, memOperand (memSelfDisp0 r scale)] }

/-- The instruction lea r,[r+eiz*scale+0]. -/
def leaEizIns (r : X86Reg) (scale : Int) : CsIns :=
  { id := X86InsId.lea, address := 0, size := 4, addr_size := 4
    mnemonic := "lea", op_str := "", groups := []
    ops := [regOperand r, memOperand (memSelfEiz r scale)] }

/-- The instruction mov r,r. -/
def movSelfIns (r : X86Reg) : CsIns :=
  { id := X86InsId.mov, address := 0, size := 2, addr_size := 4
    mnemonic := "mov", op_str := "", groups := []
    ops := [regOperand r, regOperand r] }

/-- The instruction xchg r,r. -/
def xchgSelfIns (r : X86Reg) : CsIns :=
  { id := X86InsId.xchg, address := 0, size := 2, addr_size := 4
    mnemonic := "xchg", op_str := "", groups := []
    ops := [regOperand r, regOperand r] }

/-- The trap instruction int3. -/
def int3Ins : CsIns :=
  { id := X86InsId.int3, address := 0, size := 1, addr_size := 4
    mnemonic := "int3", op_str := "", groups := [CsGroup.grp 7]
    ops := [] }

/-- The trap instruction ud2. -/
def ud2Ins : CsIns :=
  { id := X86InsId.ud2, address := 0, size := 2, addr_size := 4
    mnemonic := "ud2", op_str := "", groups := []
    ops := [] }

/-! ## AddressMap (src/disasm.cc lines 50..144)

The C++ structure pairs a std::map from address to a flag bitmask with an
unmapped working set: a vector of addresses plus a std::map from address to
its position in that vector.  Both maps are embedded as functions from
addresses to optional values; the vector is a list.  The flag constants
live in disasm.h, which is not among the staged sources; their values are
modelled from the spec (an OR-combinable bitmask whose UNMAPPED element is
mutually exclusive with the rest, hence zero) with one distinct bit per
classification. -/

/-- Modelled from the spec: the UNMAPPED region flag, the neutral element
of the OR-combinable bitmask. -/
def DISASM_REGION_UNMAPPED : Nat := 0

/-- Modelled from the spec: the CODE region flag bit. -/
def DISASM_REGION_CODE : Nat := 1

/-- Modelled from the spec: the DATA region flag bit. -/
def DISASM_REGION_DATA : Nat := 2

/-- Modelled from the spec: the INSTRUCTION_START region flag bit. -/
def DISASM_REGION_INS_START : Nat := 256

/-- Modelled from the spec: the BASIC_BLOCK_START region flag bit. -/
def DISASM_REGION_BB_START : Nat := 512

/-- Per-section byte-granularity classification map with an unmapped
working set supporting constant-time removal by swap-with-last. -/
structure AddressMap where
  addrmap         : Nat → Option Nat
  unmapped        : List Nat
  unmapped_lookup : Nat → Option Nat

/-- The AddressMap holding nothing at all (default-constructed). -/
def AddressMap.empty : AddressMap :=
  { addrmap := fun _ => none, unmapped := [], unmapped_lookup := fun _ => none }

namespace AddressMap

/-- Membership test AddressMap::contains: tracked either with flags or in
the unmapped working set. -/
def contains (m : AddressMap) (addr : Nat) : Bool :=
  (m.addrmap addr).isSome || (m.unmapped_lookup addr).isSome

/-- Operation AddressMap::insert: append to the unmapped vector and record
its position, unless the address is already tracked anywhere. -/
def insert (m : AddressMap) (addr : Nat) : AddressMap :=
  if m.contains addr then m
  else
    { m with
      unmapped := m.unmapped ++ [addr]
      unmapped_lookup := fun a =>
        if a = addr then some m.unmapped.length else m.unmapped_lookup a }

/-- Observation AddressMap::unmapped_count. -/
def unmapped_count (m : AddressMap) : Nat :=
  m.unmapped.length

/-- Observation AddressMap::get_unmapped: unchecked vector indexing. -/
def get_unmapped (m : AddressMap) (i : Nat) : Nat :=
  m.unmapped.getD i 0

/-- Operation AddressMap::erase_unmapped: constant-time removal from the
unmapped set.  The element is overwritten by the last element, the lookup
position of that last element is updated, the lookup entry of the removed
address is erased and the vector shrinks by one; a singleton vector skips
the swap.  The C++ writes the position of the moved last element before
erasing the removed address, so when both coincide the erase wins, which
the first conditional branch of the function below reproduces. -/
def erase_unmapped (m : AddressMap) (addr : Nat) : AddressMap :=
  if (m.unmapped_lookup addr).isSome then
    if m.unmapped_count > 1 then
      let i := (m.unmapped_lookup addr).getD 0
      let lastElem := m.unmapped.getLastD 0
      { m with
        unmapped := (m.unmapped.set i lastElem).dropLast
        unmapped_lookup := fun a =>
          if a = addr then none
          else if a = lastElem then some i
          else m.unmapped_lookup a }
    else
      { m with
        unmapped := m.unmapped.dropLast
        unmapped_lookup := fun a =>
          if a = addr then none else m.unmapped_lookup a }
  else m

/-- Observation AddressMap::get_addr_type.  The C++ asserts containment and
answers UNMAPPED otherwise; for a contained address it reads the addrmap
entry through operator[], whose value is the stored bitmask, or zero when
the address is still unmapped (the default-inserted entry of operator[] is
observationally the same zero, so the embedding stays a pure reader). -/
def get_addr_type (m : AddressMap) (addr : Nat) : Nat :=
  if m.contains addr then (m.addrmap addr).getD 0
  else DISASM_REGION_UNMAPPED

/-- Operation AddressMap::set_addr_type: for a contained address, leave the
unmapped set when the written type is not UNMAPPED, then overwrite the
bitmask. -/
def set_addr_type (m : AddressMap) (addr : Nat) (ty : Nat) : AddressMap :=
  if m.contains addr then
    let m1 := if ty ≠ DISASM_REGION_UNMAPPED then m.erase_unmapped addr else m
    { m1 with
      addrmap := fun a => if a = addr then some ty else m1.addrmap a }
  else m

/-- Operation AddressMap::add_addr_flag: for a contained address, leave the
unmapped set when the flag is not UNMAPPED, then OR the flag into the
bitmask (operator[] default-inserts zero first). -/
def add_addr_flag (m : AddressMap) (addr : Nat) (flag : Nat) : AddressMap :=
  if m.contains addr then
    let m1 := if flag ≠ DISASM_REGION_UNMAPPED then m.erase_unmapped addr else m
    { m1 with
      addrmap := fun a =>
        if a = addr then some ((m1.addrmap addr).getD 0 ||| flag)
        else m1.addrmap a }
  else m

/-- Operation AddressMap::erase: drop the flag entry when present, then
remove from the unmapped set. -/
def erase (m : AddressMap) (addr : Nat) : AddressMap :=
  let m1 :=
    if (m.addrmap addr).isSome then
      { m with addrmap := fun a => if a = addr then none else m.addrmap a }
    else m
  m1.erase_unmapped addr

/-- Representation invariant of the paired vector and lookup map: the
lookup holds position i for an address exactly when the vector holds that
address at position i. -/
def WF (m : AddressMap) : Prop :=
  ∀ a i, m.unmapped_lookup a = some i ↔ m.unmapped[i]? = some a

/-- Flag observation: a given bit of the stored classification bitmask. -/
def hasFlagBit (m : AddressMap) (addr : Nat) (k : Nat) : Bool :=
  (m.get_addr_type addr).testBit k

end AddressMap

/-- Initialization performed by init_disasm (src/disasm.cc lines 163..169):
every address of the section range, in increasing order, is inserted into
the unmapped set of a fresh AddressMap. -/
def initSectionMap (vma size : Nat) : AddressMap :=
  (List.range size).foldl (fun m i => m.insert (vma + i)) AddressMap.empty

/-- One engine write to the AddressMap: add_addr_flag at an address. -/
def applyEngineOps (ops : List (Nat × Nat)) (m : AddressMap) : AddressMap :=
  ops.foldl (fun m op => m.add_addr_flag op.1 op.2) m

/-! ## Instruction and basic block model

The nucleus Instruction, Operand and BB structures live in insn.h and bb.h,
which are not among the staged sources; their fields are modelled from the
data model of the spec: an Instruction carries start, size, address size,
mnemonic and operand text, flag attributes NOP RET JMP COND CFLOW CALL
INDIRECT, privileged and trap markers, an optional direct branch target and
an operand list; a BB carries its address range, its owning section, its
instructions and the flags invalid, privileged, padding, trap, alive. -/

/-- Modelled from the spec: flag bit CFLOW of an Instruction. -/
def INS_FLAG_CFLOW : Nat := 1

/-- Modelled from the spec: flag bit COND of an Instruction. -/
def INS_FLAG_COND : Nat := 2

/-- Modelled from the spec: flag bit INDIRECT of an Instruction. -/
def INS_FLAG_INDIRECT : Nat := 4

/-- Modelled from the spec: flag bit JMP of an Instruction. -/
def INS_FLAG_JMP : Nat := 8

/-- Modelled from the spec: flag bit CALL of an Instruction. -/
def INS_FLAG_CALL : Nat := 16

/-- Modelled from the spec: flag bit RET of an Instruction. -/
def INS_FLAG_RET : Nat := 32

/-- Modelled from the spec: flag bit NOP of an Instruction. -/
def INS_FLAG_NOP : Nat := 64

/-- Modelled from the spec: the tagged payload of a nucleus Operand
(the x86_value union of the C structure). -/
inductive OperandValue where
  | noneVal
  | regVal (r : X86Reg)
  | immVal (i : Int)
  | fpVal (f : Int)
  | memVal (segment base index : X86Reg) (scale disp : Int)

/-- Modelled from the spec: a normalized nucleus Operand. -/
structure Operand where
  type  : OpType
  size  : Nat
  value : OperandValue

/-- Modelled from the spec: a decoded nucleus Instruction. -/
structure Instruction where
  start      : Nat
  size       : Nat
  addr_size  : Nat
  mnem       : String
  op_str     : String
  privileged : Bool
  trap       : Bool
  flags      : Nat
  target     : Option Int
  operands   : List Operand

/-- Modelled from the spec: a candidate or accepted basic block.  The end
field of the C structure is written end_ because end is reserved; the
owning section reference is written sect for the same reason. -/
structure BB where
  start      : Nat
  end_       : Nat
  sect       : Option Section
  insns      : List Instruction
  invalid    : Bool
  privileged : Bool
  padding    : Bool
  trap       : Bool
  alive      : Bool

/-! ## The decode oracle

cs_disasm_iter is embedded as a function from the current address and the
count of remaining section bytes to an optional decoded instruction (none
when the iterator returns false), restricted by the capstone interface
guarantee that a successful decode consumes at most the bytes offered. -/

/-- The abstract capstone iterator for one section. -/
structure DecOracle where
  dec : Nat → Nat → Option CsIns
  dec_le : ∀ a n i, dec a n = some i → i.size ≤ n

/-- Why the decode loop of nucleus_disasm_bb_x86 stopped: the iterator
returned false, the decoded id was X86_INS_INVALID, the decoded size was
zero, the no-op grouping rule stopped the block before appending, or a
control-flow instruction ended the block after being appended.  fuelOut is
the exhaustion marker of the fuel-indexed embedding; it is proved
unreachable from the entry point. -/
inductive StopReason where
  | iterEnd
  | invalidOp
  | zeroSize
  | nopBoundary
  | cflowEnd
  | fuelOut
deriving DecidableEq

/-- Translation of one capstone operand into a nucleus Operand, as done by
the operand loop of nucleus_disasm_bb_x86 (src/disasm.cc lines 527..548). -/
def translateOperand (o : CsX86Op) : Operand :=
  let t := cs_to_nucleus_op_type o.type
  { type := t
    size := o.size
    value :=
      match t with
      | .imm => OperandValue.immVal o.imm
      | .reg => OperandValue.regVal o.reg
      | .fp => OperandValue.fpVal o.fp
      | .mem => OperandValue.memVal o.mem.segment o.mem.base o.mem.index o.mem.scale o.mem.disp
      | .opNone => OperandValue.noneVal }

/-- Whether the operand loop marks the instruction INDIRECT: the
instruction is control flow and some operand translates to a register or
memory operand. -/
def operandIndirect (cflow : Bool) (csops : List CsX86Op) : Bool :=
  cflow && csops.any (fun o =>
    cs_to_nucleus_op_type o.type == OpType.reg
    || cs_to_nucleus_op_type o.type == OpType.mem)

/-- The direct-target extraction loop (src/disasm.cc lines 550..559): when
some semantic group is control flow, every immediate operand overwrites the
target in order, so the last immediate wins; with no control-flow group the
target stays as it was. -/
def extractTarget (ci : CsIns) (old : Option Int) : Option Int :=
  if ci.groups.any (fun g => is_cs_cflow_group g) then
    ci.ops.foldl (fun acc o => if o.type == X86OpType.imm then some o.imm else acc) old
  else old

/-- The Instruction appended for one decoded instruction, with the
classification flag bits, the INDIRECT mark from the operand loop and the
extracted target (src/disasm.cc lines 512..559). -/
def buildInstruction (ci : CsIns) (nop ret jmp cond cflow call priv trap : Bool) : Instruction :=
  let baseFlags : Nat :=
    (if nop then INS_FLAG_NOP else 0) |||
    (if ret then INS_FLAG_RET else 0) |||
    (if jmp then INS_FLAG_JMP else 0) |||
    (if cond then INS_FLAG_COND else 0) |||
    (if cflow then INS_FLAG_CFLOW else 0) |||
    (if call then INS_FLAG_CALL else 0)
  { start := ci.address
    size := ci.size
    addr_size := ci.addr_size
    mnem := ci.mnemonic
    op_str := ci.op_str
    privileged := priv
    trap := trap
    flags := baseFlags ||| (if operandIndirect cflow ci.ops then INS_FLAG_INDIRECT else 0)
    target := extractTarget ci none
    operands := ci.ops.map translateOperand }

/-- The decode loop of nucleus_disasm_bb_x86 (src/disasm.cc lines
471..565), indexed by fuel; the entry point supplies one unit of fuel more
than the remaining byte count, which is proved sufficient.  State: current
address, remaining bytes, the block under construction, the count of
appended instructions and the only_nop grouping latch. -/
def disasmLoopF (bin : Binary) (o : DecOracle) :
    Nat → Nat → Nat → BB → Nat → Bool → BB × Nat × StopReason
  | 0, _, _, bb, ndis, _ => (bb, ndis, StopReason.fuelOut)
  | fuel+1, pcAddr, n, bb, ndis, onlyNop =>
    match o.dec pcAddr n with
    | none => (bb, ndis, StopReason.iterEnd)
    | some ci =>
      if ci.id == X86InsId.invalid then
        ({ bb with invalid := true, end_ := bb.end_ + 1 }, ndis, StopReason.invalidOp)
      else if ci.size == 0 then
        (bb, ndis, StopReason.zeroSize)
      else
        let trap := is_cs_trap_ins ci
        let nop := loop_nop_class bin ci
        let ret := is_cs_ret_ins ci
        let jmp := is_cs_unconditional_jmp_ins ci || is_cs_conditional_cflow_ins ci
        let cond := is_cs_conditional_cflow_ins ci
        let cflow := is_cs_cflow_ins ci
        let call := is_cs_call_ins ci
        let priv := is_cs_privileged_ins ci
        let onlyNop' := if ndis == 0 && nop then true else onlyNop
        if !onlyNop' && nop then (bb, ndis, StopReason.nopBoundary)
        else if onlyNop' && !nop then (bb, ndis, StopReason.nopBoundary)
        else
          let ins := buildInstruction ci nop ret jmp cond cflow call priv trap
          let bb' := { bb with
            end_ := bb.end_ + ci.size
            insns := bb.insns ++ [ins]
            privileged := bb.privileged || priv
            padding := bb.padding || nop
            trap := bb.trap || trap }
          if cflow then (bb', ndis + 1, StopReason.cflowEnd)
          else disasmLoopF bin o fuel (pcAddr + ci.size) (n - ci.size) bb' (ndis + 1) onlyNop'

/-- The basic-block decoder nucleus_disasm_bb_x86 (src/disasm.cc lines
412..586).  An unsupported bit width or a start address outside the section
range is the hard error path (return -1 in the C source, Except.error
here); otherwise the function returns the mutated block, the count of
appended instructions and the stop reason, applying the zero-instruction
postlude that marks the block invalid and advances end by one more byte.
The capstone handle initialization failures are environmental and outside
the embedding. -/
def nucleus_disasm_bb_x86 (bin : Binary) (sec : Section) (o : DecOracle) (bb : BB) :
    Except Unit (BB × Nat × StopReason) :=
  if !(bin.bits == 64 || bin.bits == 32 || bin.bits == 16) then Except.error ()
  else if bb.start < sec.vma || bb.start - sec.vma ≥ sec.size then Except.error ()
  else
    let offset := bb.start - sec.vma
    let n := sec.size - offset
    let bb1 := { bb with end_ := bb.start, sect := some sec }
    let r := disasmLoopF bin o (n + 1) bb.start n bb1 0 false
    let bb2 :=
      if r.2.1 == 0 then { r.1 with invalid := true, end_ := r.1.end_ + 1 }
      else r.1
    Except.ok (bb2, r.2.1, r.2.2)

/-- Architecture dispatch nucleus_disasm_bb (src/disasm.cc lines 589..599). -/
def nucleus_disasm_bb (bin : Binary) (sec : Section) (o : DecOracle) (bb : BB) :
    Except Unit (BB × Nat × StopReason) :=
  match bin.arch with
  | .x86 => nucleus_disasm_bb_x86 bin sec o bb
  | .arch _ => Except.error ()

/-! ## The section exploration engine (src/disasm.cc lines 602..662) -/

/-- The implicit conversion that stores the return value of bb_select into
the unsigned variable n of nucleus_disasm_section: reduction of the signed
value modulo 2 to the 32. -/
def store_unsigned (r : Int) : Nat :=
  (r % (2 ^ 32 : Int)).toNat

/-- The guard of the selection-failure branch of nucleus_disasm_section
(src/disasm.cc line 633): the comparison n < 0 evaluated on the unsigned
variable n just assigned from bb_select. -/
def bbSelectFailBranch (r : Int) : Bool :=
  decide (store_unsigned r < 0)

/-- The per-section disassembly state DisasmSection: the section, its
AddressMap and the accepted blocks.  The section field is written sect
because section is reserved. -/
structure DisasmSection where
  sect    : Section
  addrmap : AddressMap
  BBs     : List BB

/-- The external policy layer bb_mutate, bb_score and bb_select of
strategy.cc, embedded per the contracts of the spec: mutate proposes
candidate blocks for a parent, score rates one decoded candidate (negative
is the fatal signal), select mutates the alive flags of the candidate
array and returns the survivor count. -/
structure Policies where
  bb_mutate : DisasmSection → Option BB → List BB
  bb_score  : DisasmSection → BB → Int
  bb_select : DisasmSection → List BB → List BB × Int

/-- The first half of the worklist body (src/disasm.cc lines 625..632):
decode every mutant in order and test its score; a decode hard error or a
negative score aborts the section. -/
def decodeScoreAll (bin : Binary) (o : DecOracle) (pol : Policies) (dis : DisasmSection) :
    List BB → Except Unit (List BB)
  | [] => Except.ok []
  | b :: rest =>
    match nucleus_disasm_bb bin dis.sect o b with
    | Except.error _ => Except.error ()
    | Except.ok (b', _, _) =>
      if pol.bb_score dis b' < 0 then Except.error ()
      else
        match decodeScoreAll bin o pol dis rest with
        | Except.error _ => Except.error ()
        | Except.ok rest' => Except.ok (b' :: rest')

/-- The AddressMap writes recording one accepted block (src/disasm.cc
lines 638..644): BASIC_BLOCK_START at its start, INSTRUCTION_START at each
instruction start, CODE on every byte of the range. -/
def addBBFlags (m : AddressMap) (bb : BB) : AddressMap :=
  let m1 := m.add_addr_flag bb.start DISASM_REGION_BB_START
  let m2 := bb.insns.foldl (fun mm ins => mm.add_addr_flag ins.start DISASM_REGION_INS_START) m1
  (List.range (bb.end_ - bb.start)).foldl
    (fun mm i => mm.add_addr_flag (bb.start + i) DISASM_REGION_CODE) m2

/-- Recording of one surviving candidate (src/disasm.cc lines 637..646):
the AddressMap writes and the append of a durable copy to the BB list. -/
def recordSurvivor (dis : DisasmSection) (bb : BB) : DisasmSection :=
  { dis with addrmap := addBBFlags dis.addrmap bb, BBs := dis.BBs ++ [bb] }

/-- Recording of all surviving candidates, in candidate order. -/
def recordSurvivors (dis : DisasmSection) (survivors : List BB) : DisasmSection :=
  survivors.foldl recordSurvivor dis

/-- One worklist iteration of nucleus_disasm_section for one dequeued
parent (src/disasm.cc lines 623..648): ask bb_mutate for candidates,
decode and score each, run bb_select, store its return value into the
unsigned count, test the selection-failure branch, then record the alive
candidates among the first n and return them as the new parents to
enqueue. -/
def disasm_iter (bin : Binary) (o : DecOracle) (pol : Policies) (dis : DisasmSection)
    (parent : Option BB) : Except Unit (DisasmSection × List BB) :=
  let mutants := pol.bb_mutate dis parent
  match decodeScoreAll bin o pol dis mutants with
  | Except.error _ => Except.error ()
  | Except.ok decoded =>
    let sel := pol.bb_select dis decoded
    if bbSelectFailBranch sel.2 then Except.error ()
    else
      let n := store_unsigned sel.2
      let survivors := (sel.1.take n).filter (fun b => b.alive)
      Except.ok (recordSurvivors dis survivors, survivors)

/-- Result of disassembling one section: success with the final state,
the hard failure path (return -1), or fuel exhaustion of the embedding. -/
inductive SectionResult where
  | ok (dis : DisasmSection)
  | fail
  | outOfFuel

/-- The worklist loop of nucleus_disasm_section (src/disasm.cc lines
621..649), indexed by fuel since the C loop need not terminate: the queue
starts with the null seed parent; each iteration dequeues one parent and
enqueues the recorded survivors. -/
def nucleus_disasm_section_loop (bin : Binary) (o : DecOracle) (pol : Policies) :
    Nat → DisasmSection → List (Option BB) → SectionResult
  | _, dis, [] => SectionResult.ok dis
  | 0, _, _ :: _ => SectionResult.outOfFuel
  | fuel+1, dis, p :: rest =>
    match disasm_iter bin o pol dis p with
    | Except.error _ => SectionResult.fail
    | Except.ok (dis', newBBs) =>
      nucleus_disasm_section_loop bin o pol fuel dis' (rest ++ newBBs.map some)

/-- The per-section driver nucleus_disasm_section (src/disasm.cc lines
602..662): skip a non-code section when only_code_sections is set,
otherwise run the worklist loop seeded with the null parent. -/
def nucleus_disasm_section (bin : Binary) (o : DecOracle) (pol : Policies)
    (only_code_sections : Bool) (fuel : Nat) (dis : DisasmSection) : SectionResult :=
  if dis.sect.sectype ≠ SecType.code && only_code_sections then SectionResult.ok dis
  else nucleus_disasm_section_loop bin o pol fuel dis [none]

/-! ## Observations on instructions and concrete inputs for the scenarios -/

/-- Observation: the NOP attribute bit of a decoded Instruction (bit 6 of
the modelled flag layout). -/
def insnNop (ins : Instruction) : Bool :=
  ins.flags.testBit 6

/-- Observation: the CFLOW attribute bit of a decoded Instruction (bit 0
of the modelled flag layout). -/
def insnCflow (ins : Instruction) : Bool :=
  ins.flags.testBit 0

/-- A Binary of a given container format, 32 bit x86. -/
def binWithType (bt : BinType) : Binary :=
  { bits := 32, type := bt, arch := BinArch.x86, arch_str := "x86" }

/-- A 64-bit x86 ELF binary. -/
def bin64 : Binary :=
  { bits := 64, type := BinType.elf, arch := BinArch.x86, arch_str := "x86" }

/-- A small code section of four bytes at address 4096. -/
def sec4 : Section :=
  { name := ".text", vma := 4096, size := 4, sectype := SecType.code }

/-- A fresh candidate block at a given start address, as the mutation
policy creates them. -/
def bbFresh (a : Nat) : BB :=
  { start := a, end_ := 0, sect := none, insns := [], invalid := false
    privileged := false, padding := false, trap := false, alive := true }

/-- A decode oracle whose iterator always reports failure. -/
def oracleNone : DecOracle :=
  { dec := fun _ _ => none
    dec_le := fun _ _ _ h => Option.noConfusion h }

/-- A decoded instruction carrying the invalid id. -/
def invalidIns : CsIns :=
  { id := X86InsId.invalid, address := 0, size := 0, addr_size := 4
    mnemonic := "", op_str := "", groups := [], ops := [] }

/-- A decode oracle that always reports an instruction with the invalid
id, as a defensive decoder interface allows. -/
def oracleInvalid : DecOracle :=
  { dec := fun _ _ => some invalidIns
    dec_le := fun _ n i h => by cases h; exact Nat.zero_le n }

/-- A one-byte return instruction at a given address. -/
def retIns (a : Nat) : CsIns :=
  { id := X86InsId.ret, address := a, size := 1, addr_size := 8
    mnemonic := "ret", op_str := "", groups := [CsGroup.ret], ops := [] }

/-- A decode oracle that decodes every byte as a one-byte return. -/
def oracleRet : DecOracle :=
  { dec := fun a n => if 1 ≤ n then some (retIns a) else none
    dec_le := fun a n i h => by
      dsimp only at h
      by_cases hn : 1 ≤ n
      · rw [if_pos hn] at h
        cases h
        exact hn
      · rw [if_neg hn] at h
        exact Option.noConfusion h }

/-- The per-section state right after init_disasm for a section. -/
def disInit (s : Section) : DisasmSection :=
  { sect := s, addrmap := initSectionMap s.vma s.size, BBs := [] }

/-- A policy layer that proposes two fresh candidates at the first two
bytes of sec4 for the seed parent and nothing afterwards, scores every
candidate zero, and whose selection keeps only the second candidate alive
while returning a survivor count of one. -/
def polSecond : Policies :=
  { bb_mutate := fun _ p =>
      match p with
      | none => [bbFresh 4096, bbFresh 4097]
      | some _ => []
    bb_score := fun _ _ => 0
    bb_select := fun _ l =>
      (match l with
       | [x, y] => [{ x with alive := false }, { y with alive := true }]
       | z => z, 1) }

/-- A policy layer that proposes one candidate outside sec4. -/
def polOutOfRange : Policies :=
  { bb_mutate := fun _ _ => [bbFresh 5000]
    bb_score := fun _ _ => 0
    bb_select := fun _ l => (l, Int.ofNat l.length) }

/-- A policy layer that proposes one in-range candidate for the seed and
keeps it, then proposes nothing. -/
def polKeepFirst : Policies :=
  { bb_mutate := fun _ p =>
      match p with
      | none => [bbFresh 4096]
      | some _ => []
    bb_score := fun _ _ => 0
    bb_select := fun _ l => (l, Int.ofNat l.length) }

theorem disasmLoopF_end_mono (bin : Binary) (o : DecOracle) :
    ∀ (fuel pc n : Nat) (bb : BB) (nd : Nat) (onl : Bool),
      bb.end_ ≤ (disasmLoopF bin o fuel pc n bb nd onl).1.end_ := by
  intro fuel
  induction fuel with
  | zero => intro pc n bb nd onl; simp [disasmLoopF]
  | succ fuel ih =>
    intro pc n bb nd onl
    simp only [disasmLoopF]
    repeat' split
    all_goals first
      | simp
      | (refine le_trans ?_ (ih _ _ _ _ _); dsimp only; omega)

theorem disasmLoopF_nd_mono (bin : Binary) (o : DecOracle) :
    ∀ (fuel pc n : Nat) (bb : BB) (nd : Nat) (onl : Bool),
      nd ≤ (disasmLoopF bin o fuel pc n bb nd onl).2.1 := by
  intro fuel
  induction fuel with
  | zero => intro pc n bb nd onl; simp [disasmLoopF]
  | succ fuel ih =>
    intro pc n bb nd onl
    simp only [disasmLoopF]
    repeat' split
    all_goals first
      | simp
      | (refine le_trans ?_ (ih _ _ _ _ _); omega)

theorem disasmLoopF_strict (bin : Binary) (o : DecOracle) :
    ∀ (fuel pc n : Nat) (bb : BB) (nd : Nat) (onl : Bool),
      nd < (disasmLoopF bin o fuel pc n bb nd onl).2.1 →
      bb.end_ < (disasmLoopF bin o fuel pc n bb nd onl).1.end_ := by
  intro fuel
  cases fuel with
  | zero => intro pc n bb nd onl h; simp [disasmLoopF] at h
  | succ fuel =>
    intro pc n bb nd onl
    simp only [disasmLoopF]
    repeat' split
    all_goals intro hlt
    all_goals try dsimp only at hlt ⊢
    all_goals first
      | omega
      | (simp only [beq_iff_eq] at *; omega)
      | (refine lt_of_lt_of_le ?_ (disasmLoopF_end_mono bin o fuel _ _ _ _ _)
         dsimp only
         simp only [beq_iff_eq] at *
         omega)

theorem disasmLoopF_no_fuelOut (bin : Binary) (o : DecOracle) :
    ∀ (fuel pc n : Nat) (bb : BB) (nd : Nat) (onl : Bool),
      n < fuel →
      (disasmLoopF bin o fuel pc n bb nd onl).2.2 ≠ StopReason.fuelOut := by
  intro fuel
  induction fuel with
  | zero => intro pc n bb nd onl h; omega
  | succ fuel ih =>
    intro pc n bb nd onl h
    simp only [disasmLoopF]
    cases hdec : o.dec pc n with
    | none => simp
    | some ci =>
      have hle := o.dec_le _ _ _ hdec
      dsimp only
      repeat' split
      all_goals first
        | (intro hco; exact StopReason.noConfusion hco)
        | (refine ih _ _ _ _ _ ?_
           simp only [beq_iff_eq] at *
           omega)

theorem disasmLoopF_no_append (bin : Binary) (o : DecOracle) :
    ∀ (fuel pc n : Nat) (bb : BB) (nd : Nat) (onl : Bool),
      (disasmLoopF bin o fuel pc n bb nd onl).2.1 = nd →
      ((disasmLoopF bin o fuel pc n bb nd onl).1 = bb ∧
        (disasmLoopF bin o fuel pc n bb nd onl).2.2 ≠ StopReason.cflowEnd ∧
        (disasmLoopF bin o fuel pc n bb nd onl).2.2 ≠ StopReason.invalidOp) ∨
      ((disasmLoopF bin o fuel pc n bb nd onl).1 = { bb with invalid := true, end_ := bb.end_ + 1 } ∧
        (disasmLoopF bin o fuel pc n bb nd onl).2.2 = StopReason.invalidOp) := by
  intro fuel
  cases fuel with
  | zero =>
    intro pc n bb nd onl _
    exact Or.inl ⟨rfl, fun hco => StopReason.noConfusion hco, fun hco => StopReason.noConfusion hco⟩
  | succ fuel =>
    intro pc n bb nd onl
    simp only [disasmLoopF]
    repeat' split
    all_goals intro h
    all_goals first
      | exact Or.inl ⟨rfl, fun hco => StopReason.noConfusion hco, fun hco => StopReason.noConfusion hco⟩
      | exact Or.inr ⟨rfl, rfl⟩
      | exact absurd h (Nat.succ_ne_self _)
      | exact absurd h (ne_of_gt (lt_of_lt_of_le (Nat.lt_succ_self _) (disasmLoopF_nd_mono bin o fuel _ _ _ _ _)))

theorem insnNop_build (ci : CsIns) (nop ret jmp cond cflow call priv trap : Bool) :
    insnNop (buildInstruction ci nop ret jmp cond cflow call priv trap) = nop := by
  unfold buildInstruction insnNop
  dsimp only
  generalize operandIndirect cflow ci.ops = ind
  cases nop <;> cases ret <;> cases jmp <;> cases cond <;> cases cflow <;> cases call <;> cases ind <;> decide

theorem insnCflow_build (ci : CsIns) (nop ret jmp cond cflow call priv trap : Bool) :
    insnCflow (buildInstruction ci nop ret jmp cond cflow call priv trap) = cflow := by
  unfold buildInstruction insnCflow
  dsimp only
  generalize operandIndirect cflow ci.ops = ind
  cases nop <;> cases ret <;> cases jmp <;> cases cond <;> cases cflow <;> cases call <;> cases ind <;> decide

theorem disasmLoopF_cflow_struct (bin : Binary) (o : DecOracle) :
    ∀ (fuel pc n : Nat) (bb : BB) (nd : Nat) (onl : Bool),
      (∀ i ∈ bb.insns, insnCflow i = false) →
      (∀ i ∈ (disasmLoopF bin o fuel pc n bb nd onl).1.insns.dropLast, insnCflow i = false) ∧
      ((disasmLoopF bin o fuel pc n bb nd onl).2.2 = StopReason.cflowEnd →
        ∃ ilast, (disasmLoopF bin o fuel pc n bb nd onl).1.insns.getLast? = some ilast ∧
          insnCflow ilast = true) ∧
      ((disasmLoopF bin o fuel pc n bb nd onl).2.2 ≠ StopReason.cflowEnd →
        ∀ i ∈ (disasmLoopF bin o fuel pc n bb nd onl).1.insns, insnCflow i = false) := by
  intro fuel
  induction fuel with
  | zero =>
    intro pc n bb nd onl H
    exact ⟨fun i hi => H i (List.dropLast_subset _ hi),
      fun hco => StopReason.noConfusion hco, fun _ => H⟩
  | succ fuel ih =>
    intro pc n bb nd onl H
    simp only [disasmLoopF]
    cases hdec : o.dec pc n with
    | none =>
      exact ⟨fun i hi => H i (List.dropLast_subset _ hi),
        fun hco => StopReason.noConfusion hco, fun _ => H⟩
    | some ci =>
      dsimp only
      split
      · exact ⟨fun i hi => H i (List.dropLast_subset _ hi),
          fun hco => StopReason.noConfusion hco, fun _ => H⟩
      · split
        · exact ⟨fun i hi => H i (List.dropLast_subset _ hi),
            fun hco => StopReason.noConfusion hco, fun _ => H⟩
        · split
          · -- no-op latch set by the first instruction
            split
            · -- first no-op grouping break
              exact ⟨fun i hi => H i (List.dropLast_subset _ hi),
                fun hco => StopReason.noConfusion hco, fun _ => H⟩
            · split
              · -- second no-op grouping break
                exact ⟨fun i hi => H i (List.dropLast_subset _ hi),
                  fun hco => StopReason.noConfusion hco, fun _ => H⟩
              · split
                · next hcf =>
                  refine ⟨?_, ?_, ?_⟩
                  · intro i hi
                    rw [List.dropLast_concat] at hi
                    exact H i hi
                  · intro _
                    exact ⟨_, List.getLast?_concat _, by rw [insnCflow_build]; exact hcf⟩
                  · intro hne
                    exact absurd rfl hne
                · next hcf =>
                  refine ih _ _ _ _ _ ?_
                  intro i hi
                  rcases List.mem_append.mp hi with h1 | h1
                  · exact H i h1
                  · rw [List.mem_singleton.mp h1, insnCflow_build]
                    simpa using hcf
          · -- latch keeps its previous value
            split
            · -- first no-op grouping break
              exact ⟨fun i hi => H i (List.dropLast_subset _ hi),
                fun hco => StopReason.noConfusion hco, fun _ => H⟩
            · split
              · -- second no-op grouping break
                exact ⟨fun i hi => H i (List.dropLast_subset _ hi),
                  fun hco => StopReason.noConfusion hco, fun _ => H⟩
              · split
                · next hcf =>
                  refine ⟨?_, ?_, ?_⟩
                  · intro i hi
                    rw [List.dropLast_concat] at hi
                    exact H i hi
                  · intro _
                    exact ⟨_, List.getLast?_concat _, by rw [insnCflow_build]; exact hcf⟩
                  · intro hne
                    exact absurd rfl hne
                · next hcf =>
                  refine ih _ _ _ _ _ ?_
                  intro i hi
                  rcases List.mem_append.mp hi with h1 | h1
                  · exact H i h1
                  · rw [List.mem_singleton.mp h1, insnCflow_build]
                    simpa using hcf

theorem disasmLoopF_nop_const (bin : Binary) (o : DecOracle) :
    ∀ (fuel pc n : Nat) (bb : BB) (nd : Nat) (onl : Bool),
      (nd = 0 → bb.insns = [] ∧ onl = false) →
      (1 ≤ nd → ∀ i ∈ bb.insns, insnNop i = onl) →
      ∃ c : Bool, ∀ i ∈ (disasmLoopF bin o fuel pc n bb nd onl).1.insns, insnNop i = c := by
  intro fuel
  induction fuel with
  | zero =>
    intro pc n bb nd onl H0 H1
    rcases Nat.eq_zero_or_pos nd with hnd | hnd
    · exact ⟨false, fun i hi => absurd hi (by simp [disasmLoopF, (H0 hnd).1])⟩
    · exact ⟨onl, H1 hnd⟩
  | succ fuel ih =>
    intro pc n bb nd onl H0 H1
    have hbase : ∃ c : Bool, ∀ i ∈ bb.insns, insnNop i = c := by
      rcases Nat.eq_zero_or_pos nd with hnd | hnd
      · exact ⟨false, fun i hi => absurd hi (by simp [(H0 hnd).1])⟩
      · exact ⟨onl, H1 hnd⟩
    simp only [disasmLoopF]
    cases hdec : o.dec pc n with
    | none => exact hbase
    | some ci =>
      dsimp only
      split
      · exact hbase
      · split
        · exact hbase
        · split
          · next hlatch =>
            -- the first instruction is a no-op and sets the latch
            have hnd0 : nd = 0 ∧ loop_nop_class bin ci = true := by simpa using hlatch
            have hins : bb.insns = [] := (H0 hnd0.1).1
            split
            · exact hbase
            · split
              · exact hbase
              · split
                · refine ⟨true, fun i hi => ?_⟩
                  rw [hins, List.nil_append] at hi
                  rw [List.mem_singleton.mp hi, insnNop_build]
                  exact hnd0.2
                · refine ih _ _ _ _ _ (fun h => absurd h (Nat.succ_ne_zero _)) ?_
                  intro _ i hi
                  rw [hins, List.nil_append] at hi
                  rw [List.mem_singleton.mp hi, insnNop_build]
                  exact hnd0.2
          · next hlatch =>
            -- the latch keeps its previous value onl
            split
            · exact hbase
            · next hb1 =>
              split
              · exact hbase
              · next hb2 =>
                have hnopeq : loop_nop_class bin ci = onl := by
                  cases honl : onl <;> cases hnop : loop_nop_class bin ci <;> simp_all
                split
                · refine ⟨onl, fun i hi => ?_⟩
                  rcases List.mem_append.mp hi with h1 | h1
                  · rcases Nat.eq_zero_or_pos nd with hnd | hnd
                    · exact absurd h1 (by simp [(H0 hnd).1])
                    · exact H1 hnd i h1
                  · rw [List.mem_singleton.mp h1, insnNop_build]
                    exact hnopeq
                · refine ih _ _ _ _ _ (fun h => absurd h (Nat.succ_ne_zero _)) ?_
                  intro _ i hi
                  rcases List.mem_append.mp hi with h1 | h1
                  · rcases Nat.eq_zero_or_pos nd with hnd | hnd
                    · exact absurd h1 (by simp [(H0 hnd).1])
                    · exact H1 hnd i h1
                  · rw [List.mem_singleton.mp h1, insnNop_build]
                    exact hnopeq

theorem disasmLoopF_invalidOp_flag (bin : Binary) (o : DecOracle) :
    ∀ (fuel pc n : Nat) (bb : BB) (nd : Nat) (onl : Bool),
      (disasmLoopF bin o fuel pc n bb nd onl).2.2 = StopReason.invalidOp →
      (disasmLoopF bin o fuel pc n bb nd onl).1.invalid = true := by
  intro fuel
  induction fuel with
  | zero => intro pc n bb nd onl h; exact StopReason.noConfusion h
  | succ fuel ih =>
    intro pc n bb nd onl
    simp only [disasmLoopF]
    repeat' split
    all_goals intro h
    all_goals first
      | rfl
      | exact StopReason.noConfusion h
      | exact ih _ _ _ _ _ h

/-- Claim C1: for every section and every start address, when
nucleus_disasm_bb_x86 does not return a hard error the produced block has
end strictly greater than start, even when the very first decode attempt
reports an invalid opcode (the invalid branch and the zero-instruction
postlude each advance end, so progress holds on every success path). -/
theorem bb_x86_forward_progress
    (bin : Binary) (sec : Section) (o : DecOracle) (bb bb' : BB) (k : Nat) (r : StopReason)
    (h : nucleus_disasm_bb_x86 bin sec o bb = Except.ok (bb', k, r)) :
    bb.start < bb'.end_ := by
  unfold nucleus_disasm_bb_x86 at h
  split at h
  · exact Except.noConfusion h
  split at h
  · exact Except.noConfusion h
  dsimp only at h
  simp only [Except.ok.injEq, Prod.mk.injEq] at h
  obtain ⟨hb, hk, hr⟩ := h
  subst hb
  have hend := disasmLoopF_end_mono bin o (sec.size - (bb.start - sec.vma) + 1) bb.start
    (sec.size - (bb.start - sec.vma)) { bb with end_ := bb.start, sect := some sec } 0 false
  have hstr := disasmLoopF_strict bin o (sec.size - (bb.start - sec.vma) + 1) bb.start
    (sec.size - (bb.start - sec.vma)) { bb with end_ := bb.start, sect := some sec } 0 false
  dsimp only at hend hstr
  split
  · dsimp only
    omega
  · next hz =>
    exact hstr (Nat.pos_of_ne_zero (by simpa using hz))

/-- Claim C5 as amended: whenever nucleus_disasm_bb_x86 appends zero
instructions the returned block has invalid set, and its end is start + 1
except on the branch where the decoder itself reported an instruction with
the invalid id: there the invalid branch advances end by one and the
zero-instruction postlude advances it a second time, giving start + 2. -/
theorem bb_x86_zero_insns
    (bin : Binary) (sec : Section) (o : DecOracle) (bb bb' : BB) (r : StopReason)
    (h : nucleus_disasm_bb_x86 bin sec o bb = Except.ok (bb', 0, r)) :
    bb'.invalid = true ∧
    (r = StopReason.invalidOp → bb'.end_ = bb.start + 2) ∧
    (r ≠ StopReason.invalidOp → bb'.end_ = bb.start + 1) := by
  unfold nucleus_disasm_bb_x86 at h
  split at h
  · exact Except.noConfusion h
  split at h
  · exact Except.noConfusion h
  dsimp only at h
  simp only [Except.ok.injEq, Prod.mk.injEq] at h
  obtain ⟨hb, hk, hr⟩ := h
  subst hb
  subst hr
  have hchar := disasmLoopF_no_append bin o (sec.size - (bb.start - sec.vma) + 1) bb.start
    (sec.size - (bb.start - sec.vma)) { bb with end_ := bb.start, sect := some sec } 0 false hk
  rw [hk]
  rcases hchar with ⟨heq, _, hni⟩ | ⟨heq, hinv⟩
  · refine ⟨by simp, ?_, ?_⟩
    · intro hco
      exact absurd hco hni
    · intro _
      simp only [heq]
      simp
  · refine ⟨by simp, ?_, ?_⟩
    · intro _
      simp only [heq]
      simp
    · intro hco
      exact absurd hinv hco

/-- Claim C3: in every block produced by nucleus_disasm_bb_x86 from a
fresh candidate, all instructions carry the same no-op classification as
the first instruction: a block starting on a no-op holds only no-ops and a
block starting on a real instruction holds no no-op, because the grouping
latch stops decoding before a mismatching instruction is appended. -/
theorem bb_x86_nop_grouping
    (bin : Binary) (sec : Section) (o : DecOracle) (bb bb' : BB) (k : Nat) (r : StopReason)
    (hins : bb.insns = [])
    (h : nucleus_disasm_bb_x86 bin sec o bb = Except.ok (bb', k, r)) :
    ∀ i0, bb'.insns.head? = some i0 → ∀ i ∈ bb'.insns, insnNop i = insnNop i0 := by
  unfold nucleus_disasm_bb_x86 at h
  split at h
  · exact Except.noConfusion h
  split at h
  · exact Except.noConfusion h
  dsimp only at h
  simp only [Except.ok.injEq, Prod.mk.injEq] at h
  obtain ⟨hb, hk, hr⟩ := h
  subst hb
  obtain ⟨c, hc⟩ := disasmLoopF_nop_const bin o (sec.size - (bb.start - sec.vma) + 1) bb.start
    (sec.size - (bb.start - sec.vma)) { bb with end_ := bb.start, sect := some sec } 0 false
    (fun _ => ⟨hins, rfl⟩) (fun hcon => absurd hcon (by omega))
  have hsame : (if ((disasmLoopF bin o (sec.size - (bb.start - sec.vma) + 1) bb.start
      (sec.size - (bb.start - sec.vma)) { bb with end_ := bb.start, sect := some sec } 0 false).2.1 == 0) = true
      then { (disasmLoopF bin o (sec.size - (bb.start - sec.vma) + 1) bb.start
        (sec.size - (bb.start - sec.vma)) { bb with end_ := bb.start, sect := some sec } 0 false).1 with
          invalid := true,
          end_ := (disasmLoopF bin o (sec.size - (bb.start - sec.vma) + 1) bb.start
            (sec.size - (bb.start - sec.vma)) { bb with end_ := bb.start, sect := some sec } 0 false).1.end_ + 1 }
      else (disasmLoopF bin o (sec.size - (bb.start - sec.vma) + 1) bb.start
        (sec.size - (bb.start - sec.vma)) { bb with end_ := bb.start, sect := some sec } 0 false).1).insns
      = (disasmLoopF bin o (sec.size - (bb.start - sec.vma) + 1) bb.start
        (sec.size - (bb.start - sec.vma)) { bb with end_ := bb.start, sect := some sec } 0 false).1.insns := by
    split <;> rfl
  rw [hsame]
  intro i0 h0 i hi
  rw [hc i hi, hc i0 (List.mem_of_mem_head? (by rw [h0]; rfl))]

/-- Claim C4: every block produced by nucleus_disasm_bb_x86 from a fresh
candidate with at least one instruction either ends on a control-flow
instruction, or is marked invalid, or stopped because the iterator could
not produce another instruction (the section bytes ran out or the decode
was truncated) or because the no-op grouping boundary was hit; and a
control-flow instruction is never followed by another instruction in its
block, since decoding stops right after appending it. -/
theorem bb_x86_cflow_termination
    (bin : Binary) (sec : Section) (o : DecOracle) (bb bb' : BB) (k : Nat) (r : StopReason)
    (hins : bb.insns = [])
    (h : nucleus_disasm_bb_x86 bin sec o bb = Except.ok (bb', k, r))
    (hk1 : 1 ≤ k) :
    ((∃ ilast, bb'.insns.getLast? = some ilast ∧ insnCflow ilast = true) ∨
      bb'.invalid = true ∨
      r = StopReason.iterEnd ∨ r = StopReason.zeroSize ∨ r = StopReason.nopBoundary) ∧
    (∀ i ∈ bb'.insns.dropLast, insnCflow i = false) := by
  unfold nucleus_disasm_bb_x86 at h
  split at h
  · exact Except.noConfusion h
  split at h
  · exact Except.noConfusion h
  dsimp only at h
  simp only [Except.ok.injEq, Prod.mk.injEq] at h
  obtain ⟨hb, hk, hr⟩ := h
  subst hb
  subst hr
  rw [if_neg (by simp; omega)]
  obtain ⟨hdrop, hcf, hncf⟩ := disasmLoopF_cflow_struct bin o
    (sec.size - (bb.start - sec.vma) + 1) bb.start
    (sec.size - (bb.start - sec.vma)) { bb with end_ := bb.start, sect := some sec } 0 false
    (by intro i hi; rw [hins] at hi; exact absurd hi (List.not_mem_nil i))
  refine ⟨?_, hdrop⟩
  cases hce : (disasmLoopF bin o (sec.size - (bb.start - sec.vma) + 1) bb.start
      (sec.size - (bb.start - sec.vma)) { bb with end_ := bb.start, sect := some sec } 0 false).2.2 with
  | iterEnd => exact Or.inr (Or.inr (Or.inl rfl))
  | invalidOp => exact Or.inr (Or.inl (disasmLoopF_invalidOp_flag bin o _ _ _ _ _ _ hce))
  | zeroSize => exact Or.inr (Or.inr (Or.inr (Or.inl rfl)))
  | nopBoundary => exact Or.inr (Or.inr (Or.inr (Or.inr rfl)))
  | cflowEnd => exact Or.inl (hcf hce)
  | fuelOut =>
    exact absurd hce (disasmLoopF_no_fuelOut bin o _ _ _ _ _ _ (by omega))

/-- Witness for C1 at a concrete input: a section at 4096 whose decoder
immediately fails still yields a block ending past 4096. -/
theorem bb_x86_forward_progress_witness :
    ∃ bb' k r, nucleus_disasm_bb_x86 bin64 sec4 oracleNone (bbFresh 4096) = Except.ok (bb', k, r) ∧
      (bbFresh 4096).start < bb'.end_ :=
  ⟨_, _, _, rfl, bb_x86_forward_progress bin64 sec4 oracleNone (bbFresh 4096) _ _ _ rfl⟩

/-- Witness for C5 at a concrete input: an immediately failing iterator
yields an invalid block ending exactly one byte past its start. -/
theorem bb_x86_zero_insns_witness :
    ∃ bb' r, nucleus_disasm_bb_x86 bin64 sec4 oracleNone (bbFresh 4096) = Except.ok (bb', 0, r) ∧
      bb'.invalid = true ∧ bb'.end_ = (bbFresh 4096).start + 1 :=
  ⟨_, _, rfl, (bb_x86_zero_insns bin64 sec4 oracleNone (bbFresh 4096) _ _ rfl).1,
    (bb_x86_zero_insns bin64 sec4 oracleNone (bbFresh 4096) _ _ rfl).2.2 (by decide)⟩

/-- Counterexample to C5 as stated: when the first decode reports an
instruction with the invalid id, zero instructions are appended, the block
is invalid, and end is start + 2, not start + 1: the claim that end equals
start + 1 in every zero-instruction case, including the invalid-opcode
report, is false on the code. -/
theorem bb_x86_zero_insns_counterexample :
    ∃ bb', nucleus_disasm_bb_x86 bin64 sec4 oracleInvalid (bbFresh 4096) =
        Except.ok (bb', 0, StopReason.invalidOp) ∧
      bb'.invalid = true ∧ ¬ bb'.end_ = (bbFresh 4096).start + 1 :=
  ⟨_, rfl, rfl, by decide⟩

/-- Witness for C3 at a concrete input: a block decoded from a one-byte
return stream. -/
theorem bb_x86_nop_grouping_witness :
    ∃ bb' k r, nucleus_disasm_bb_x86 bin64 sec4 oracleRet (bbFresh 4096) = Except.ok (bb', k, r) ∧
      ∀ i0, bb'.insns.head? = some i0 → ∀ i ∈ bb'.insns, insnNop i = insnNop i0 :=
  ⟨_, _, _, rfl, bb_x86_nop_grouping bin64 sec4 oracleRet (bbFresh 4096) _ _ _ rfl rfl⟩

/-- Witness for C4 at a concrete input: the one-byte return stream ends
its block on the return instruction. -/
theorem bb_x86_cflow_termination_witness :
    ∃ bb' k r, nucleus_disasm_bb_x86 bin64 sec4 oracleRet (bbFresh 4096) = Except.ok (bb', k, r) ∧
      (((∃ ilast, bb'.insns.getLast? = some ilast ∧ insnCflow ilast = true) ∨
        bb'.invalid = true ∨ r = StopReason.iterEnd ∨ r = StopReason.zeroSize ∨
        r = StopReason.nopBoundary) ∧
       (∀ i ∈ bb'.insns.dropLast, insnCflow i = false)) :=
  ⟨_, _, _, rfl, bb_x86_cflow_termination bin64 sec4 oracleRet (bbFresh 4096) _ _ _ rfl rfl (by decide)⟩

/-- Claim C8: the decode loop classifies the enumerated semantic no-op
patterns (mov r,r; xchg r,r; lea r,[r+0]; lea r,[r+eiz*s+0]) as no-ops
exactly when the binary format is not PE, and classifies the trap
instructions int3 and ud2 as no-ops exactly when the binary format is PE. -/
theorem nop_classification_format_rules (bt : BinType) (rg : X86Reg) (s : Int) :
    loop_nop_class (binWithType bt) (movSelfIns rg) = !(bt == BinType.pe) ∧
    loop_nop_class (binWithType bt) (xchgSelfIns rg) = !(bt == BinType.pe) ∧
    loop_nop_class (binWithType bt) (leaSelfIns rg s) = !(bt == BinType.pe) ∧
    loop_nop_class (binWithType bt) (leaEizIns rg s) = !(bt == BinType.pe) ∧
    loop_nop_class (binWithType bt) int3Ins = (bt == BinType.pe) ∧
    loop_nop_class (binWithType bt) ud2Ins = (bt == BinType.pe) := by
  cases bt <;>
    refine ⟨?_, ?_, ?_, ?_, ?_, ?_⟩ <;>
      simp [loop_nop_class, binWithType, is_cs_nop_ins, is_cs_semantic_nop_ins, is_cs_trap_ins,
        movSelfIns, xchgSelfIns, leaSelfIns, leaEizIns, int3Ins, ud2Ins, regOperand, memOperand,
        memSelfDisp0, memSelfEiz]

/-- Claim C10: the error check on the value bb_select returns is
vacuous: the value is stored into an unsigned variable, so the guard of
the selection-failure branch is false for every possible return value and
the branch is unreachable, while the sentinel -1 is reinterpreted as the
survivor count 4294967295. -/
theorem bb_select_check_vacuous (rsel : Int) :
    bbSelectFailBranch rsel = false ∧ store_unsigned (-1) = 4294967295 := by
  constructor
  · simp [bbSelectFailBranch]
  · rfl

namespace AddressMap

theorem WF_empty : WF AddressMap.empty := by
  intro a i
  simp [AddressMap.empty]

theorem mem_of_lookup (m : AddressMap) (h : WF m) {a i : Nat}
    (hl : m.unmapped_lookup a = some i) : i < m.unmapped.length ∧ m.unmapped[i]? = some a := by
  have := (h a i).mp hl
  exact ⟨(List.getElem?_eq_some.mp this).1, this⟩

theorem erase_unmapped_addrmap (m : AddressMap) (a : Nat) :
    (m.erase_unmapped a).addrmap = m.addrmap := by
  unfold erase_unmapped
  split
  · split <;> rfl
  · rfl

theorem erase_unmapped_lookup_self (m : AddressMap) (a : Nat) :
    (m.erase_unmapped a).unmapped_lookup a = none := by
  unfold erase_unmapped
  split
  · split
    · simp
    · simp
  · next hns =>
    simpa using hns

theorem erase_unmapped_WF (m : AddressMap) (a : Nat) (h : WF m) : WF (m.erase_unmapped a) := by
  unfold erase_unmapped
  by_cases hs : (m.unmapped_lookup a).isSome = true
  case neg =>
    rw [if_neg hs]
    exact h
  case pos =>
    rw [if_pos hs]
    obtain ⟨ia, hia⟩ := Option.isSome_iff_exists.mp hs
    obtain ⟨hlt, hmem⟩ := mem_of_lookup m h hia
    by_cases hc : m.unmapped_count > 1
    · rw [if_pos hc]
      unfold unmapped_count at hc
      have hlastq : m.unmapped[m.unmapped.length - 1]? = some (m.unmapped.getLastD 0) := by
        cases hml : m.unmapped.getLast? with
        | none =>
          rw [List.getLast?_eq_none_iff] at hml
          rw [hml] at hlt
          simp at hlt
        | some x =>
          rw [List.getLastD_eq_getLast?, hml]
          rw [← List.getLast?_eq_getElem?, hml]
          rfl
      have hlook_last : m.unmapped_lookup (m.unmapped.getLastD 0) = some (m.unmapped.length - 1) :=
        (h _ _).mpr hlastq
      have hset : ∀ j, ((m.unmapped.set ((m.unmapped_lookup a).getD 0) (m.unmapped.getLastD 0)).dropLast)[j]? =
          if j < m.unmapped.length - 1 then
            (if ia = j then some (m.unmapped.getLastD 0) else m.unmapped[j]?)
          else none := by
        intro j
        rw [List.dropLast_eq_take, List.getElem?_take]
        rw [List.length_set, hia]
        simp only [Option.getD_some, List.getElem?_set]
        by_cases h1 : j < m.unmapped.length - 1
        · rw [if_pos h1, if_pos h1]
          by_cases h2 : ia = j
          · rw [if_pos h2, if_pos h2, if_pos hlt]
          · rw [if_neg h2, if_neg h2]
        · rw [if_neg h1, if_neg h1]
      intro b j
      dsimp only
      rw [hset j, hia]
      simp only [Option.getD_some]
      by_cases hba : b = a
      · subst hba
        rw [if_pos rfl]
        constructor
        · intro hco
          exact Option.noConfusion hco
        · intro hco
          exfalso
          by_cases hj : j < m.unmapped.length - 1
          · rw [if_pos hj] at hco
            by_cases hij : ia = j
            · rw [if_pos hij] at hco
              have hbl2 : m.unmapped.getLastD 0 = b := Option.some.inj hco
              rw [hbl2, hia] at hlook_last
              have h3 : ia = m.unmapped.length - 1 := Option.some.inj hlook_last
              omega
            · rw [if_neg hij] at hco
              have h4 := (h b j).mpr hco
              rw [hia] at h4
              exact hij (Option.some.inj h4)
          · rw [if_neg hj] at hco
            exact Option.noConfusion hco
      · rw [if_neg hba]
        by_cases hbl : b = m.unmapped.getLastD 0
        · rw [if_pos hbl]
          have hialt : ia < m.unmapped.length - 1 := by
            rcases Nat.lt_or_ge ia (m.unmapped.length - 1) with hlt2 | hge
            · exact hlt2
            · exfalso
              have hie : ia = m.unmapped.length - 1 := by omega
              rw [hie, hlastq] at hmem
              have : m.unmapped.getLastD 0 = a := Option.some.inj hmem
              rw [← this] at hba
              exact hba hbl
          constructor
          · intro hj
            have hj2 : ia = j := Option.some.inj hj
            subst hj2
            rw [if_pos hialt, if_pos rfl, hbl]
          · intro hj
            by_cases hjlt : j < m.unmapped.length - 1
            · rw [if_pos hjlt] at hj
              by_cases hij : ia = j
              · rw [hij]
              · exfalso
                rw [if_neg hij] at hj
                have h5 := (h b j).mpr hj
                rw [hbl, hlook_last] at h5
                have h6 : m.unmapped.length - 1 = j := Option.some.inj h5
                omega
            · exfalso
              rw [if_neg hjlt] at hj
              exact Option.noConfusion hj
        · rw [if_neg hbl]
          constructor
          · intro hj
            have hmj := mem_of_lookup m h hj
            by_cases hjlt : j < m.unmapped.length - 1
            · rw [if_pos hjlt]
              by_cases hij : ia = j
              · exfalso
                rw [← hij, hmem] at hmj
                have h7 := hmj.2
                exact hba (Option.some.inj h7.symm)
              · rw [if_neg hij]
                exact hmj.2
            · exfalso
              have hje : j = m.unmapped.length - 1 := by omega
              have h8 := hmj.2
              rw [hje, hlastq] at h8
              exact hbl (Option.some.inj h8.symm)
          · intro hj
            by_cases hjlt : j < m.unmapped.length - 1
            · rw [if_pos hjlt] at hj
              by_cases hij : ia = j
              · exfalso
                rw [if_pos hij] at hj
                exact hbl (Option.some.inj hj.symm)
              · rw [if_neg hij] at hj
                exact (h b j).mpr hj
            · exfalso
              rw [if_neg hjlt] at hj
              exact Option.noConfusion hj
    · rw [if_neg hc]
      unfold unmapped_count at hc
      have hlen1 : m.unmapped.length = 1 := by omega
      have hdrop : m.unmapped.dropLast = [] := by
        rw [List.dropLast_eq_take, hlen1]
        simp
      intro b j
      dsimp only
      rw [hdrop]
      constructor
      · intro hj
        by_cases hba : b = a
        · rw [if_pos hba] at hj
          exact Option.noConfusion hj
        · rw [if_neg hba] at hj
          exfalso
          have hmj := mem_of_lookup m h hj
          have hj0 : j = 0 := by omega
          have hia0 : ia = 0 := by omega
          rw [hj0] at hmj
          rw [hia0] at hmem
          have h9 := hmj.2
          rw [hmem] at h9
          exact hba (Option.some.inj h9.symm)
      · intro hj
        simp at hj


theorem getLastD_getElem (m : AddressMap) (hpos : 0 < m.unmapped.length) :
    m.unmapped[m.unmapped.length - 1]? = some (m.unmapped.getLastD 0) := by
  cases hml : m.unmapped.getLast? with
  | none =>
    rw [List.getLast?_eq_none_iff] at hml
    rw [hml] at hpos
    simp at hpos
  | some x =>
    rw [List.getLastD_eq_getLast?, hml]
    rw [← List.getLast?_eq_getElem?, hml]
    rfl

theorem erase_unmapped_lookup_ne (m : AddressMap) (a : Nat) (h : WF m) (b : Nat) (hb : b ≠ a) :
    ((m.erase_unmapped a).unmapped_lookup b).isSome = (m.unmapped_lookup b).isSome := by
  unfold erase_unmapped
  by_cases hs : (m.unmapped_lookup a).isSome = true
  · rw [if_pos hs]
    obtain ⟨ia, hia⟩ := Option.isSome_iff_exists.mp hs
    obtain ⟨hlt, hmem⟩ := mem_of_lookup m h hia
    by_cases hc : m.unmapped_count > 1
    · rw [if_pos hc]
      unfold unmapped_count at hc
      dsimp only
      rw [if_neg hb]
      by_cases hbl : b = m.unmapped.getLastD 0
      · rw [if_pos hbl]
        have hlook_last : m.unmapped_lookup (m.unmapped.getLastD 0) = some (m.unmapped.length - 1) :=
          (h _ _).mpr (getLastD_getElem m (by omega))
        rw [hbl, hlook_last]
        rfl
      · rw [if_neg hbl]
    · rw [if_neg hc]
      dsimp only
      rw [if_neg hb]
  · rw [if_neg hs]

theorem insert_addrmap (m : AddressMap) (a : Nat) : (m.insert a).addrmap = m.addrmap := by
  unfold insert
  split <;> rfl

theorem not_contains_parts (m : AddressMap) (a : Nat) (hcon : ¬ m.contains a = true) :
    m.addrmap a = none ∧ m.unmapped_lookup a = none := by
  unfold contains at hcon
  simp only [Bool.or_eq_true, not_or, Bool.not_eq_true] at hcon
  exact ⟨Option.not_isSome_iff_eq_none.mp (by simp [hcon.1]),
    Option.not_isSome_iff_eq_none.mp (by simp [hcon.2])⟩

theorem insert_WF (m : AddressMap) (a : Nat) (h : WF m) : WF (m.insert a) := by
  unfold insert
  split
  · exact h
  · next hcon =>
    have hla : m.unmapped_lookup a = none := (not_contains_parts m a hcon).2
    intro b j
    dsimp only
    by_cases hba : b = a
    · subst hba
      rw [if_pos rfl]
      constructor
      · intro hj
        have hlj : m.unmapped.length = j := Option.some.inj hj
        rw [← hlj]
        exact List.getElem?_concat_length _ _
      · intro hj
        rw [List.getElem?_append] at hj
        by_cases hjl : j < m.unmapped.length
        · rw [if_pos hjl] at hj
          exfalso
          have h2 := (h b j).mpr hj
          rw [hla] at h2
          exact Option.noConfusion h2
        · rw [if_neg hjl] at hj
          by_cases hj0 : j - m.unmapped.length = 0
          · exact congrArg some (by omega)
          · exfalso
            rw [List.getElem?_eq_none (by simp; omega)] at hj
            exact Option.noConfusion hj
    · rw [if_neg hba]
      rw [List.getElem?_append]
      by_cases hjl : j < m.unmapped.length
      · rw [if_pos hjl]
        exact h b j
      · rw [if_neg hjl]
        constructor
        · intro hj
          exfalso
          have h3 := mem_of_lookup m h hj
          omega
        · intro hj
          exfalso
          by_cases hj0 : j - m.unmapped.length = 0
          · rw [hj0] at hj
            simp at hj
            exact hba hj.symm
          · rw [List.getElem?_eq_none (by simp; omega)] at hj
            exact Option.noConfusion hj

theorem insert_contains (m : AddressMap) (a b : Nat) :
    (m.insert a).contains b = (m.contains b || decide (b = a)) := by
  unfold insert
  split
  · next hcon =>
    by_cases hba : b = a
    · subst hba
      simp [hcon]
    · simp [hba]
  · next hcon =>
    unfold contains
    dsimp only
    by_cases hba : b = a
    · subst hba
      rw [if_pos rfl]
      simp
    · rw [if_neg hba]
      simp [hba]


theorem add_addr_flag_WF (m : AddressMap) (addr flag : Nat) (h : WF m) :
    WF (m.add_addr_flag addr flag) := by
  unfold add_addr_flag
  split
  · split
    · intro b j
      dsimp only
      exact erase_unmapped_WF m addr h b j
    · intro b j
      dsimp only
      exact h b j
  · exact h

theorem add_addr_flag_contains (m : AddressMap) (addr flag b : Nat) (h : WF m) :
    (m.add_addr_flag addr flag).contains b = m.contains b := by
  unfold add_addr_flag
  split
  · next hcon =>
    split
    · unfold contains
      dsimp only
      by_cases hba : b = addr
      · subst hba
        rw [if_pos rfl]
        simp only [Option.isSome_some, Bool.true_or]
        exact hcon.symm
      · rw [if_neg hba]
        rw [erase_unmapped_addrmap]
        rw [erase_unmapped_lookup_ne m addr h b hba]
    · unfold contains
      dsimp only
      by_cases hba : b = addr
      · subst hba
        rw [if_pos rfl]
        simp only [Option.isSome_some, Bool.true_or]
        exact hcon.symm
      · rw [if_neg hba]
  · rfl

theorem add_addr_flag_type_ne (m : AddressMap) (addr flag b : Nat) (h : WF m) (hba : b ≠ addr) :
    (m.add_addr_flag addr flag).get_addr_type b = m.get_addr_type b := by
  unfold get_addr_type
  rw [add_addr_flag_contains m addr flag b h]
  split
  · unfold add_addr_flag
    split
    · split
      · dsimp only
        rw [if_neg hba, erase_unmapped_addrmap]
      · dsimp only
        rw [if_neg hba]
    · rfl
  · rfl

theorem add_addr_flag_type_self (m : AddressMap) (addr flag : Nat) (hcon : m.contains addr = true) :
    (m.add_addr_flag addr flag).get_addr_type addr = ((m.addrmap addr).getD 0 ||| flag) := by
  unfold add_addr_flag
  rw [if_pos hcon]
  split
  · unfold get_addr_type contains
    dsimp only
    rw [if_pos rfl]
    simp only [Option.isSome_some, Bool.true_or, if_pos rfl, Option.getD_some, if_true]
    rw [erase_unmapped_addrmap]
  · unfold get_addr_type contains
    dsimp only
    rw [if_pos rfl]
    simp only [Option.isSome_some, Bool.true_or, if_pos rfl, Option.getD_some, if_true]

theorem add_addr_flag_hasBit (m : AddressMap) (addr flag b k : Nat) (h : WF m)
    (hbit : (m.get_addr_type b).testBit k = true) :
    ((m.add_addr_flag addr flag).get_addr_type b).testBit k = true := by
  by_cases hba : b = addr
  · subst hba
    by_cases hcon : m.contains b = true
    · rw [add_addr_flag_type_self m b flag hcon, Nat.testBit_or]
      unfold get_addr_type at hbit
      rw [if_pos hcon] at hbit
      rw [hbit]
      rfl
    · exfalso
      unfold get_addr_type at hbit
      rw [if_neg hcon] at hbit
      simp [DISASM_REGION_UNMAPPED] at hbit
  · rw [add_addr_flag_type_ne m addr flag b h hba]
    exact hbit

theorem add_addr_flag_sets_bit (m : AddressMap) (addr flag k : Nat)
    (hcon : m.contains addr = true) (hbit : flag.testBit k = true) :
    ((m.add_addr_flag addr flag).get_addr_type addr).testBit k = true := by
  rw [add_addr_flag_type_self m addr flag hcon, Nat.testBit_or, hbit]
  simp

theorem add_addr_flag_partition (m : AddressMap) (addr flag : Nat) (_h : WF m)
    (hflag : flag ≠ DISASM_REGION_UNMAPPED) (hcon : m.contains addr = true) :
    ((m.add_addr_flag addr flag).addrmap addr).isSome = true ∧
    (m.add_addr_flag addr flag).unmapped_lookup addr = none := by
  unfold add_addr_flag
  rw [if_pos hcon, if_pos hflag]
  dsimp only
  rw [if_pos rfl]
  exact ⟨rfl, erase_unmapped_lookup_self m addr⟩

theorem add_addr_flag_parts_ne (m : AddressMap) (addr flag b : Nat) (h : WF m) (hba : b ≠ addr) :
    (m.add_addr_flag addr flag).addrmap b = m.addrmap b ∧
    ((m.add_addr_flag addr flag).unmapped_lookup b).isSome = (m.unmapped_lookup b).isSome := by
  unfold add_addr_flag
  split
  · split
    · dsimp only
      rw [if_neg hba, erase_unmapped_addrmap]
      exact ⟨rfl, erase_unmapped_lookup_ne m addr h b hba⟩
    · dsimp only
      rw [if_neg hba]
      exact ⟨rfl, rfl⟩
  · exact ⟨rfl, rfl⟩


theorem foldl_add_flag_WF {α : Type} (g : α → Nat) (flag : Nat) :
    ∀ (l : List α) (m : AddressMap), WF m →
      WF (l.foldl (fun mm x => mm.add_addr_flag (g x) flag) m) := by
  intro l
  induction l with
  | nil => intro m h; exact h
  | cons x rest ih =>
    intro m h
    exact ih _ (add_addr_flag_WF m (g x) flag h)

theorem foldl_add_flag_contains {α : Type} (g : α → Nat) (flag : Nat) :
    ∀ (l : List α) (m : AddressMap), WF m → ∀ b,
      (l.foldl (fun mm x => mm.add_addr_flag (g x) flag) m).contains b = m.contains b := by
  intro l
  induction l with
  | nil => intro m _ b; rfl
  | cons x rest ih =>
    intro m h b
    rw [List.foldl_cons, ih _ (add_addr_flag_WF m (g x) flag h) b,
      add_addr_flag_contains m (g x) flag b h]

theorem foldl_add_flag_hasBit {α : Type} (g : α → Nat) (flag : Nat) :
    ∀ (l : List α) (m : AddressMap), WF m → ∀ b k,
      ((m.get_addr_type b).testBit k = true) →
      (((l.foldl (fun mm x => mm.add_addr_flag (g x) flag) m).get_addr_type b).testBit k = true) := by
  intro l
  induction l with
  | nil => intro m _ b k hb; exact hb
  | cons x rest ih =>
    intro m h b k hb
    exact ih _ (add_addr_flag_WF m (g x) flag h) b k (add_addr_flag_hasBit m (g x) flag b k h hb)

theorem foldl_add_flag_sets {α : Type} (g : α → Nat) (flag : Nat) :
    ∀ (l : List α) (m : AddressMap), WF m → ∀ x ∈ l, ∀ k,
      m.contains (g x) = true → flag.testBit k = true →
      (((l.foldl (fun mm x => mm.add_addr_flag (g x) flag) m).get_addr_type (g x)).testBit k = true) := by
  intro l
  induction l with
  | nil => intro m _ x hx; exact absurd hx (List.not_mem_nil x)
  | cons y rest ih =>
    intro m h x hx k hcon hbit
    rcases List.mem_cons.mp hx with hxy | hxr
    · subst hxy
      rw [List.foldl_cons]
      exact foldl_add_flag_hasBit g flag rest _ (add_addr_flag_WF m (g x) flag h) (g x) k
        (add_addr_flag_sets_bit m (g x) flag k hcon hbit)
    · rw [List.foldl_cons]
      refine ih _ (add_addr_flag_WF m (g y) flag h) x hxr k ?_ hbit
      rw [add_addr_flag_contains m (g y) flag (g x) h]
      exact hcon

theorem foldl_add_flag_type_ne {α : Type} (g : α → Nat) (flag : Nat) :
    ∀ (l : List α) (m : AddressMap), WF m → ∀ b, (∀ x ∈ l, b ≠ g x) →
      (l.foldl (fun mm x => mm.add_addr_flag (g x) flag) m).get_addr_type b = m.get_addr_type b := by
  intro l
  induction l with
  | nil => intro m _ b _; rfl
  | cons x rest ih =>
    intro m h b hb
    rw [List.foldl_cons, ih _ (add_addr_flag_WF m (g x) flag h) b
      (fun y hy => hb y (List.mem_cons_of_mem x hy)),
      add_addr_flag_type_ne m (g x) flag b h (hb x (List.mem_cons_self x rest))]

end AddressMap

theorem addBBFlags_WF (m : AddressMap) (bb : BB) (h : AddressMap.WF m) :
    AddressMap.WF (addBBFlags m bb) := by
  unfold addBBFlags
  exact AddressMap.foldl_add_flag_WF _ _ _ _
    (AddressMap.foldl_add_flag_WF _ _ _ _
      (AddressMap.add_addr_flag_WF m bb.start DISASM_REGION_BB_START h))

theorem addBBFlags_contains (m : AddressMap) (bb : BB) (h : AddressMap.WF m) (b : Nat) :
    (addBBFlags m bb).contains b = m.contains b := by
  unfold addBBFlags
  have h1 := AddressMap.add_addr_flag_WF m bb.start DISASM_REGION_BB_START h
  have h2 := AddressMap.foldl_add_flag_WF (fun (i : Instruction) => i.start) DISASM_REGION_INS_START bb.insns _ h1
  rw [AddressMap.foldl_add_flag_contains _ _ _ _ h2 b,
    AddressMap.foldl_add_flag_contains _ _ _ _ h1 b,
    AddressMap.add_addr_flag_contains m bb.start DISASM_REGION_BB_START b h]

theorem addBBFlags_hasBit (m : AddressMap) (bb : BB) (h : AddressMap.WF m) (b k : Nat)
    (hb : (m.get_addr_type b).testBit k = true) :
    ((addBBFlags m bb).get_addr_type b).testBit k = true := by
  unfold addBBFlags
  have h1 := AddressMap.add_addr_flag_WF m bb.start DISASM_REGION_BB_START h
  have h2 := AddressMap.foldl_add_flag_WF (fun (i : Instruction) => i.start) DISASM_REGION_INS_START bb.insns _ h1
  exact AddressMap.foldl_add_flag_hasBit _ _ _ _ h2 b k
    (AddressMap.foldl_add_flag_hasBit _ _ _ _ h1 b k
      (AddressMap.add_addr_flag_hasBit m bb.start DISASM_REGION_BB_START b k h hb))


theorem addBBFlags_sets_start (m : AddressMap) (bb : BB) (h : AddressMap.WF m)
    (hcon : m.contains bb.start = true) :
    ((addBBFlags m bb).get_addr_type bb.start).testBit 9 = true := by
  unfold addBBFlags
  have h1 := AddressMap.add_addr_flag_WF m bb.start DISASM_REGION_BB_START h
  have h2 := AddressMap.foldl_add_flag_WF (fun (i : Instruction) => i.start) DISASM_REGION_INS_START bb.insns _ h1
  exact AddressMap.foldl_add_flag_hasBit _ _ _ _ h2 bb.start 9
    (AddressMap.foldl_add_flag_hasBit _ _ _ _ h1 bb.start 9
      (AddressMap.add_addr_flag_sets_bit m bb.start DISASM_REGION_BB_START 9 hcon (by decide)))

theorem addBBFlags_sets_ins (m : AddressMap) (bb : BB) (h : AddressMap.WF m)
    (ins : Instruction) (hins : ins ∈ bb.insns) (hcon : m.contains ins.start = true) :
    ((addBBFlags m bb).get_addr_type ins.start).testBit 8 = true := by
  unfold addBBFlags
  have h1 := AddressMap.add_addr_flag_WF m bb.start DISASM_REGION_BB_START h
  have h2 := AddressMap.foldl_add_flag_WF (fun (i : Instruction) => i.start) DISASM_REGION_INS_START bb.insns _ h1
  refine AddressMap.foldl_add_flag_hasBit _ _ _ _ h2 ins.start 8 ?_
  refine AddressMap.foldl_add_flag_sets (fun (i : Instruction) => i.start) DISASM_REGION_INS_START
    bb.insns _ h1 ins hins 8 ?_ (by decide)
  rw [AddressMap.add_addr_flag_contains m bb.start DISASM_REGION_BB_START ins.start h]
  exact hcon

theorem addBBFlags_sets_code (m : AddressMap) (bb : BB) (h : AddressMap.WF m)
    (a : Nat) (ha1 : bb.start ≤ a) (ha2 : a < bb.end_) (hcon : m.contains a = true) :
    ((addBBFlags m bb).get_addr_type a).testBit 0 = true := by
  unfold addBBFlags
  have h1 := AddressMap.add_addr_flag_WF m bb.start DISASM_REGION_BB_START h
  have h2 := AddressMap.foldl_add_flag_WF (fun (i : Instruction) => i.start) DISASM_REGION_INS_START bb.insns _ h1
  have hmem : a - bb.start ∈ List.range (bb.end_ - bb.start) := by
    rw [List.mem_range]
    omega
  have hga : (fun (i : Nat) => bb.start + i) (a - bb.start) = a := by
    show bb.start + (a - bb.start) = a
    omega
  have hres := AddressMap.foldl_add_flag_sets (fun (i : Nat) => bb.start + i) DISASM_REGION_CODE
    (List.range (bb.end_ - bb.start)) _ h2 (a - bb.start) hmem 0
    (by
      rw [hga, AddressMap.foldl_add_flag_contains _ _ _ _ h1 a,
        AddressMap.add_addr_flag_contains m bb.start DISASM_REGION_BB_START a h]
      exact hcon)
    (by decide)
  rw [hga] at hres
  exact hres

theorem addBBFlags_type_ne (m : AddressMap) (bb : BB) (h : AddressMap.WF m) (b : Nat)
    (hb1 : b ≠ bb.start) (hb2 : ∀ ins ∈ bb.insns, b ≠ ins.start)
    (hb3 : ¬(bb.start ≤ b ∧ b < bb.end_)) :
    (addBBFlags m bb).get_addr_type b = m.get_addr_type b := by
  unfold addBBFlags
  have h1 := AddressMap.add_addr_flag_WF m bb.start DISASM_REGION_BB_START h
  have h2 := AddressMap.foldl_add_flag_WF (fun (i : Instruction) => i.start) DISASM_REGION_INS_START bb.insns _ h1
  rw [AddressMap.foldl_add_flag_type_ne _ _ _ _ h2 b
    (by
      intro x hx
      rw [List.mem_range] at hx
      intro hco
      exact hb3 (by omega)),
    AddressMap.foldl_add_flag_type_ne _ _ _ _ h1 b hb2,
    AddressMap.add_addr_flag_type_ne m bb.start DISASM_REGION_BB_START b h hb1]

theorem recordSurvivors_BBs : ∀ (l : List BB) (dis : DisasmSection),
    (recordSurvivors dis l).BBs = dis.BBs ++ l := by
  intro l
  induction l with
  | nil => intro dis; simp [recordSurvivors]
  | cons b rest ih =>
    intro dis
    unfold recordSurvivors at ih ⊢
    rw [List.foldl_cons, ih]
    simp [recordSurvivor]

theorem recordSurvivors_sect : ∀ (l : List BB) (dis : DisasmSection),
    (recordSurvivors dis l).sect = dis.sect := by
  intro l
  induction l with
  | nil => intro dis; rfl
  | cons b rest ih =>
    intro dis
    unfold recordSurvivors at ih ⊢
    rw [List.foldl_cons, ih]
    rfl

theorem recordSurvivors_WF : ∀ (l : List BB) (dis : DisasmSection),
    AddressMap.WF dis.addrmap → AddressMap.WF (recordSurvivors dis l).addrmap := by
  intro l
  induction l with
  | nil => intro dis h; exact h
  | cons b rest ih =>
    intro dis h
    unfold recordSurvivors at ih ⊢
    rw [List.foldl_cons]
    exact ih _ (addBBFlags_WF dis.addrmap b h)

theorem recordSurvivors_contains : ∀ (l : List BB) (dis : DisasmSection),
    AddressMap.WF dis.addrmap → ∀ b,
    (recordSurvivors dis l).addrmap.contains b = dis.addrmap.contains b := by
  intro l
  induction l with
  | nil => intro dis _ b; rfl
  | cons x rest ih =>
    intro dis h b
    unfold recordSurvivors at ih ⊢
    rw [List.foldl_cons]
    have : (recordSurvivor dis x).addrmap = addBBFlags dis.addrmap x := rfl
    rw [ih (recordSurvivor dis x) (by rw [this]; exact addBBFlags_WF dis.addrmap x h) b, this,
      addBBFlags_contains dis.addrmap x h b]

theorem recordSurvivors_hasBit : ∀ (l : List BB) (dis : DisasmSection),
    AddressMap.WF dis.addrmap → ∀ b k,
    ((dis.addrmap.get_addr_type b).testBit k = true) →
    (((recordSurvivors dis l).addrmap.get_addr_type b).testBit k = true) := by
  intro l
  induction l with
  | nil => intro dis _ b k hb; exact hb
  | cons x rest ih =>
    intro dis h b k hb
    unfold recordSurvivors at ih ⊢
    rw [List.foldl_cons]
    exact ih (recordSurvivor dis x) (addBBFlags_WF dis.addrmap x h) b k
      (addBBFlags_hasBit dis.addrmap x h b k hb)

theorem recordSurvivors_records : ∀ (l : List BB) (dis : DisasmSection),
    AddressMap.WF dis.addrmap → ∀ bb ∈ l,
    (dis.addrmap.contains bb.start = true →
      (((recordSurvivors dis l).addrmap.get_addr_type bb.start).testBit 9 = true)) ∧
    (∀ ins ∈ bb.insns, dis.addrmap.contains ins.start = true →
      (((recordSurvivors dis l).addrmap.get_addr_type ins.start).testBit 8 = true)) ∧
    (∀ a, bb.start ≤ a → a < bb.end_ → dis.addrmap.contains a = true →
      (((recordSurvivors dis l).addrmap.get_addr_type a).testBit 0 = true)) := by
  intro l
  induction l with
  | nil => intro dis _ bb hbb; exact absurd hbb (List.not_mem_nil bb)
  | cons x rest ih =>
    intro dis h bb hbb
    rcases List.mem_cons.mp hbb with hx | hr
    · subst hx
      unfold recordSurvivors
      rw [List.foldl_cons]
      refine ⟨?_, ?_, ?_⟩
      · intro hcon
        exact recordSurvivors_hasBit rest _ (addBBFlags_WF _ _ h) _ 9
          (addBBFlags_sets_start _ _ h hcon)
      · intro ins hins hcon
        exact recordSurvivors_hasBit rest _ (addBBFlags_WF _ _ h) _ 8
          (addBBFlags_sets_ins _ _ h ins hins hcon)
      · intro a ha1 ha2 hcon
        exact recordSurvivors_hasBit rest _ (addBBFlags_WF _ _ h) _ 0
          (addBBFlags_sets_code _ _ h a ha1 ha2 hcon)
    · unfold recordSurvivors
      rw [List.foldl_cons]
      have hwx : AddressMap.WF (recordSurvivor dis x).addrmap := addBBFlags_WF dis.addrmap x h
      have ihr := ih (recordSurvivor dis x) hwx bb hr
      refine ⟨?_, ?_, ?_⟩
      · intro hcon
        refine ihr.1 ?_
        show (addBBFlags dis.addrmap x).contains bb.start = true
        rw [addBBFlags_contains dis.addrmap x h bb.start]
        exact hcon
      · intro ins hins hcon
        refine ihr.2.1 ins hins ?_
        show (addBBFlags dis.addrmap x).contains ins.start = true
        rw [addBBFlags_contains dis.addrmap x h ins.start]
        exact hcon
      · intro a ha1 ha2 hcon
        refine ihr.2.2 a ha1 ha2 ?_
        show (addBBFlags dis.addrmap x).contains a = true
        rw [addBBFlags_contains dis.addrmap x h a]
        exact hcon

theorem recordSurvivors_frame : ∀ (l : List BB) (dis : DisasmSection),
    AddressMap.WF dis.addrmap → ∀ a,
    (∀ bb ∈ l, a ≠ bb.start ∧ (∀ ins ∈ bb.insns, a ≠ ins.start) ∧ ¬(bb.start ≤ a ∧ a < bb.end_)) →
    (recordSurvivors dis l).addrmap.get_addr_type a = dis.addrmap.get_addr_type a := by
  intro l
  induction l with
  | nil => intro dis _ a _; rfl
  | cons x rest ih =>
    intro dis h a ha
    unfold recordSurvivors
    rw [List.foldl_cons]
    have hx := ha x (List.mem_cons_self x rest)
    have step : (recordSurvivor dis x).addrmap.get_addr_type a = dis.addrmap.get_addr_type a :=
      addBBFlags_type_ne dis.addrmap x h a hx.1 hx.2.1 hx.2.2
    rw [← step]
    exact ih (recordSurvivor dis x) (addBBFlags_WF dis.addrmap x h) a
      (fun bb hbb => ha bb (List.mem_cons_of_mem x hbb))

/-- Claim C6 as amended: in one worklist iteration of
nucleus_disasm_section, the recorded candidates are exactly the alive
candidates among the first n entries of the post-selection array, where n
is the return value of bb_select reinterpreted as unsigned: each of them
has its start flagged BASIC_BLOCK_START, each contained instruction start
flagged INSTRUCTION_START and every contained byte of its range flagged
CODE, a copy is appended to the BB list and enqueued as a new parent,
while every other address keeps its previous classification; candidates
with alive false, and alive candidates at positions at or beyond n, are
never recorded. -/
theorem disasm_iter_records_survivors
    (bin : Binary) (o : DecOracle) (pol : Policies) (dis : DisasmSection) (parent : Option BB)
    (dis' : DisasmSection) (newQ : List BB)
    (hwf : AddressMap.WF dis.addrmap)
    (h : disasm_iter bin o pol dis parent = Except.ok (dis', newQ)) :
    ∃ decoded,
      decodeScoreAll bin o pol dis (pol.bb_mutate dis parent) = Except.ok decoded ∧
      newQ = ((pol.bb_select dis decoded).1.take
        (store_unsigned (pol.bb_select dis decoded).2)).filter (fun b => b.alive) ∧
      dis'.BBs = dis.BBs ++ newQ ∧
      dis'.sect = dis.sect ∧
      (∀ bb ∈ newQ,
        (dis.addrmap.contains bb.start = true → dis'.addrmap.hasFlagBit bb.start 9 = true) ∧
        (∀ ins ∈ bb.insns, dis.addrmap.contains ins.start = true →
          dis'.addrmap.hasFlagBit ins.start 8 = true) ∧
        (∀ a, bb.start ≤ a → a < bb.end_ → dis.addrmap.contains a = true →
          dis'.addrmap.hasFlagBit a 0 = true)) ∧
      (∀ a, (∀ bb ∈ newQ, a ≠ bb.start ∧ (∀ ins ∈ bb.insns, a ≠ ins.start) ∧
          ¬(bb.start ≤ a ∧ a < bb.end_)) →
        dis'.addrmap.get_addr_type a = dis.addrmap.get_addr_type a) := by
  unfold disasm_iter at h
  dsimp only at h
  cases hdec2 : decodeScoreAll bin o pol dis (pol.bb_mutate dis parent) with
  | error e =>
    rw [hdec2] at h
    exact Except.noConfusion h
  | ok decoded =>
    rw [hdec2] at h
    dsimp only at h
    rw [if_neg (by simp [bbSelectFailBranch])] at h
    simp only [Except.ok.injEq, Prod.mk.injEq] at h
    obtain ⟨hdis, hq⟩ := h
    subst hq
    refine ⟨decoded, rfl, rfl, ?_, ?_, ?_, ?_⟩
    · rw [← hdis, recordSurvivors_BBs]
    · rw [← hdis, recordSurvivors_sect]
    · intro bb hbb
      have hrec := recordSurvivors_records _ dis hwf bb hbb
      refine ⟨?_, ?_, ?_⟩
      · intro hcon
        show (dis'.addrmap.get_addr_type bb.start).testBit 9 = true
        rw [← hdis]
        exact hrec.1 hcon
      · intro ins hins hcon
        show (dis'.addrmap.get_addr_type ins.start).testBit 8 = true
        rw [← hdis]
        exact hrec.2.1 ins hins hcon
      · intro a ha1 ha2 hcon
        show (dis'.addrmap.get_addr_type a).testBit 0 = true
        rw [← hdis]
        exact hrec.2.2 a ha1 ha2 hcon
    · intro a ha
      rw [← hdis]
      exact recordSurvivors_frame _ dis hwf a ha

theorem foldl_insert_WF (vma : Nat) :
    ∀ (l : List Nat) (m : AddressMap), AddressMap.WF m →
      AddressMap.WF (l.foldl (fun mm i => mm.insert (vma + i)) m) := by
  intro l
  induction l with
  | nil => intro m h; exact h
  | cons x rest ih =>
    intro m h
    exact ih _ (AddressMap.insert_WF m (vma + x) h)

theorem initSectionMap_WF (vma size : Nat) : AddressMap.WF (initSectionMap vma size) :=
  foldl_insert_WF vma (List.range size) AddressMap.empty AddressMap.WF_empty

theorem foldl_insert_addrmap (vma : Nat) :
    ∀ (l : List Nat) (m : AddressMap),
      (l.foldl (fun mm i => mm.insert (vma + i)) m).addrmap = m.addrmap := by
  intro l
  induction l with
  | nil => intro m; rfl
  | cons x rest ih =>
    intro m
    rw [List.foldl_cons, ih, AddressMap.insert_addrmap]

theorem foldl_insert_contains (vma : Nat) :
    ∀ (l : List Nat) (m : AddressMap) (b : Nat),
      (l.foldl (fun mm i => mm.insert (vma + i)) m).contains b =
        (m.contains b || l.any (fun i => decide (b = vma + i))) := by
  intro l
  induction l with
  | nil => intro m b; simp
  | cons x rest ih =>
    intro m b
    rw [List.foldl_cons, ih, AddressMap.insert_contains]
    simp [Bool.or_assoc]

theorem initSectionMap_contains (vma size a : Nat) (h1 : vma ≤ a) (h2 : a < vma + size) :
    (initSectionMap vma size).contains a = true := by
  unfold initSectionMap
  rw [foldl_insert_contains]
  have hany : (List.range size).any (fun i => decide (a = vma + i)) = true := by
    rw [List.any_eq_true]
    exact ⟨a - vma, List.mem_range.mpr (by omega), by simp; omega⟩
  rw [hany]
  simp

theorem initSectionMap_addrmap (vma size a : Nat) :
    (initSectionMap vma size).addrmap a = none := by
  unfold initSectionMap
  rw [foldl_insert_addrmap]
  rfl

theorem add_addr_flag_not_contains (m : AddressMap) (addr flag : Nat)
    (h : ¬ m.contains addr = true) : m.add_addr_flag addr flag = m := by
  unfold AddressMap.add_addr_flag
  rw [if_neg h]

theorem applyEngineOps_partition :
    ∀ (ops : List (Nat × Nat)) (m : AddressMap),
      AddressMap.WF m →
      (∀ op ∈ ops, op.2 = DISASM_REGION_CODE ∨ op.2 = DISASM_REGION_INS_START ∨
        op.2 = DISASM_REGION_BB_START) →
      ∀ a, (((m.addrmap a).isSome != (m.unmapped_lookup a).isSome) = true) →
      AddressMap.WF (applyEngineOps ops m) ∧
      ((((applyEngineOps ops m).addrmap a).isSome !=
        ((applyEngineOps ops m).unmapped_lookup a).isSome) = true) := by
  intro ops
  induction ops with
  | nil => intro m hwf _ a hx; exact ⟨hwf, hx⟩
  | cons op rest ih =>
    intro m hwf hops a hx
    unfold applyEngineOps
    rw [List.foldl_cons]
    have hflag : op.2 ≠ DISASM_REGION_UNMAPPED := by
      rcases hops op (List.mem_cons_self op rest) with h1 | h1 | h1 <;>
        rw [h1] <;> decide
    have hwf' : AddressMap.WF (m.add_addr_flag op.1 op.2) :=
      AddressMap.add_addr_flag_WF m op.1 op.2 hwf
    have hx' : (((m.add_addr_flag op.1 op.2).addrmap a).isSome !=
        ((m.add_addr_flag op.1 op.2).unmapped_lookup a).isSome) = true := by
      by_cases hcon : m.contains op.1 = true
      · by_cases hba : a = op.1
        · subst hba
          obtain ⟨hsome, hnone⟩ := AddressMap.add_addr_flag_partition m op.1 op.2 hwf hflag hcon
          rw [hsome, hnone]
          rfl
        · obtain ⟨hmap, hlook⟩ := AddressMap.add_addr_flag_parts_ne m op.1 op.2 a hwf hba
          rw [hmap, hlook]
          exact hx
      · rw [add_addr_flag_not_contains m op.1 op.2 hcon]
        exact hx
    exact ih _ hwf' (fun q hq => hops q (List.mem_cons_of_mem op hq)) a hx'

/-- Claim C2: under the operations the engine performs (insert of every
section address at init, add_addr_flag with the CODE, INSTRUCTION_START or
BASIC_BLOCK_START flag on accept), every address of the section range is
tracked (contains is true) and lies in exactly one of the flag map and the
unmapped set: the two isSome observations always disagree, so the address
is never in both and never in neither. -/
theorem addrmap_partition_invariant (vma size : Nat) (ops : List (Nat × Nat)) (a : Nat)
    (hops : ∀ op ∈ ops, op.2 = DISASM_REGION_CODE ∨ op.2 = DISASM_REGION_INS_START ∨
      op.2 = DISASM_REGION_BB_START)
    (h1 : vma ≤ a) (h2 : a < vma + size) :
    (applyEngineOps ops (initSectionMap vma size)).contains a = true ∧
    ((((applyEngineOps ops (initSectionMap vma size)).addrmap a).isSome !=
      ((applyEngineOps ops (initSectionMap vma size)).unmapped_lookup a).isSome) = true) := by
  have hx : (((initSectionMap vma size).addrmap a).isSome !=
      ((initSectionMap vma size).unmapped_lookup a).isSome) = true := by
    have hcon := initSectionMap_contains vma size a h1 h2
    have hmap := initSectionMap_addrmap vma size a
    unfold AddressMap.contains at hcon
    rw [hmap] at hcon ⊢
    simp only [Option.isSome_none, Bool.false_or] at hcon
    rw [hcon]
    rfl
  obtain ⟨hwf, hbne⟩ := applyEngineOps_partition ops (initSectionMap vma size)
    (initSectionMap_WF vma size) hops a hx
  refine ⟨?_, hbne⟩
  unfold AddressMap.contains
  cases hm : ((applyEngineOps ops (initSectionMap vma size)).addrmap a).isSome <;>
    cases hu : ((applyEngineOps ops (initSectionMap vma size)).unmapped_lookup a).isSome <;>
      rw [hm, hu] at hbne <;> first | rfl | exact absurd hbne (by decide)

/-- Witness for C2 at a concrete input: a four-byte section at 4096 after
one engine CODE write at 4097. -/
theorem addrmap_partition_invariant_witness :
    (applyEngineOps [(4097, DISASM_REGION_CODE)] (initSectionMap 4096 4)).contains 4097 = true ∧
    ((((applyEngineOps [(4097, DISASM_REGION_CODE)] (initSectionMap 4096 4)).addrmap 4097).isSome !=
      ((applyEngineOps [(4097, DISASM_REGION_CODE)] (initSectionMap 4096 4)).unmapped_lookup 4097).isSome) = true) :=
  addrmap_partition_invariant 4096 4 [(4097, DISASM_REGION_CODE)] 4097
    (by
      intro op hop
      rw [List.mem_singleton] at hop
      subst hop
      left
      rfl)
    (by omega) (by omega)

/-- Claim C9: on a well-formed AddressMap, erase_unmapped removes the
address from both halves of the unmapped tracking (the lookup map and the
sequence), and every other tracked address remains in the unmapped set,
retrievable through get_unmapped at the position its updated lookup entry
stores, the swap-with-last bookkeeping having kept both halves aligned. -/
theorem erase_unmapped_consistency (m : AddressMap) (addr : Nat) (hwf : AddressMap.WF m) :
    (m.erase_unmapped addr).unmapped_lookup addr = none ∧
    addr ∉ (m.erase_unmapped addr).unmapped ∧
    (∀ b j, b ≠ addr → m.unmapped_lookup b = some j →
      ∃ j', (m.erase_unmapped addr).unmapped_lookup b = some j' ∧
        (m.erase_unmapped addr).get_unmapped j' = b) := by
  have hwf' := AddressMap.erase_unmapped_WF m addr hwf
  refine ⟨AddressMap.erase_unmapped_lookup_self m addr, ?_, ?_⟩
  · intro hmem
    obtain ⟨j, hj⟩ := List.mem_iff_getElem?.mp hmem
    have := (hwf' addr j).mpr hj
    rw [AddressMap.erase_unmapped_lookup_self m addr] at this
    exact Option.noConfusion this
  · intro b j hb hj
    have hsome : ((m.erase_unmapped addr).unmapped_lookup b).isSome = true := by
      rw [AddressMap.erase_unmapped_lookup_ne m addr hwf b hb, hj]
      rfl
    obtain ⟨j', hj'⟩ := Option.isSome_iff_exists.mp hsome
    refine ⟨j', hj', ?_⟩
    have hget := (hwf' b j').mp hj'
    unfold AddressMap.get_unmapped
    rw [List.getD_eq_getElem?_getD, hget]
    rfl

/-- Witness for C9 at a concrete input: erasing the middle of three
tracked addresses keeps the last one retrievable at its swapped slot. -/
theorem erase_unmapped_consistency_witness :
    ((initSectionMap 10 3).erase_unmapped 11).unmapped_lookup 11 = none ∧
    11 ∉ ((initSectionMap 10 3).erase_unmapped 11).unmapped ∧
    (∃ j', ((initSectionMap 10 3).erase_unmapped 11).unmapped_lookup 12 = some j' ∧
      ((initSectionMap 10 3).erase_unmapped 11).get_unmapped j' = 12) :=
  ⟨(erase_unmapped_consistency (initSectionMap 10 3) 11 (initSectionMap_WF 10 3)).1,
   (erase_unmapped_consistency (initSectionMap 10 3) 11 (initSectionMap_WF 10 3)).2.1,
   (erase_unmapped_consistency (initSectionMap 10 3) 11 (initSectionMap_WF 10 3)).2.2 12 2
     (by decide) (by decide)⟩

theorem decodeScoreAll_oob (bin : Binary) (o : DecOracle) (pol : Policies) (dis : DisasmSection) :
    ∀ (l : List BB),
      (∃ m ∈ l, m.start < dis.sect.vma ∨ dis.sect.size ≤ m.start - dis.sect.vma) →
      decodeScoreAll bin o pol dis l = Except.error () := by
  intro l
  induction l with
  | nil =>
    intro ⟨m, hm, _⟩
    exact absurd hm (List.not_mem_nil m)
  | cons b rest ih =>
    intro ⟨m, hm, hoob⟩
    simp only [decodeScoreAll]
    rcases List.mem_cons.mp hm with hbm | hmr
    · subst hbm
      have hbb : nucleus_disasm_bb bin dis.sect o m = Except.error () := by
        unfold nucleus_disasm_bb
        cases bin.arch with
        | x86 =>
          dsimp only
          unfold nucleus_disasm_bb_x86
          by_cases hbits : (!(bin.bits == 64 || bin.bits == 32 || bin.bits == 16)) = true
          · rw [if_pos hbits]
          · rw [if_neg hbits,
              if_pos (by simp only [Bool.or_eq_true, decide_eq_true_eq]; omega)]
        | arch c => rfl
      rw [hbb]
    · cases hbb : nucleus_disasm_bb bin dis.sect o b with
      | error e => rfl
      | ok res =>
        obtain ⟨b2, k2, r2⟩ := res
        dsimp only
        split
        · rfl
        · rw [ih ⟨m, hmr, hoob⟩]

/-- Claim C7: a candidate block whose start address lies outside the
section range makes nucleus_disasm_bb_x86 report a hard error, and a
worklist iteration whose mutants include such a candidate makes
nucleus_disasm_section fail as a whole rather than silently skipping the
candidate: whatever happens to the mutants decoded before it, the
iteration returns the failure result. -/
theorem out_of_range_aborts_section
    (bin : Binary) (o : DecOracle) (pol : Policies) (fuel : Nat) (dis : DisasmSection)
    (parent : Option BB) (rest : List (Option BB)) (m : BB)
    (hm : m ∈ pol.bb_mutate dis parent)
    (hoob : m.start < dis.sect.vma ∨ dis.sect.size ≤ m.start - dis.sect.vma) :
    nucleus_disasm_bb_x86 bin dis.sect o m = Except.error () ∧
    nucleus_disasm_section_loop bin o pol (fuel + 1) dis (parent :: rest) = SectionResult.fail := by
  constructor
  · unfold nucleus_disasm_bb_x86
    by_cases hbits : (!(bin.bits == 64 || bin.bits == 32 || bin.bits == 16)) = true
    · rw [if_pos hbits]
    · rw [if_neg hbits,
        if_pos (by simp only [Bool.or_eq_true, decide_eq_true_eq]; omega)]
  · simp only [nucleus_disasm_section_loop]
    unfold disasm_iter
    dsimp only
    rw [decodeScoreAll_oob bin o pol dis _ ⟨m, hm, hoob⟩]

/-- Witness for C7 at a concrete input: a candidate at 5000 against the
four-byte section at 4096. -/
theorem out_of_range_aborts_section_witness :
    nucleus_disasm_bb_x86 bin64 sec4 oracleNone (bbFresh 5000) = Except.error () ∧
    nucleus_disasm_section_loop bin64 oracleNone polOutOfRange 1 (disInit sec4) [none] =
      SectionResult.fail :=
  out_of_range_aborts_section bin64 oracleNone polOutOfRange 0 (disInit sec4) none [] (bbFresh 5000)
    (List.mem_singleton.mpr rfl) (by right; decide)

/-- Witness for C6 at a concrete input: one iteration that keeps its
single candidate records exactly that candidate. -/
theorem disasm_iter_records_survivors_witness :
    AddressMap.WF (disInit sec4).addrmap ∧
    (∃ dis' newQ, disasm_iter bin64 oracleRet polKeepFirst (disInit sec4) none =
        Except.ok (dis', newQ) ∧
      (∃ decoded,
        decodeScoreAll bin64 oracleRet polKeepFirst (disInit sec4)
          (polKeepFirst.bb_mutate (disInit sec4) none) = Except.ok decoded ∧
        newQ = ((polKeepFirst.bb_select (disInit sec4) decoded).1.take
          (store_unsigned (polKeepFirst.bb_select (disInit sec4) decoded).2)).filter
            (fun b => b.alive) ∧
        dis'.BBs = (disInit sec4).BBs ++ newQ ∧
        dis'.sect = (disInit sec4).sect ∧
        (∀ bb ∈ newQ,
          ((disInit sec4).addrmap.contains bb.start = true →
            dis'.addrmap.hasFlagBit bb.start 9 = true) ∧
          (∀ ins ∈ bb.insns, (disInit sec4).addrmap.contains ins.start = true →
            dis'.addrmap.hasFlagBit ins.start 8 = true) ∧
          (∀ a, bb.start ≤ a → a < bb.end_ → (disInit sec4).addrmap.contains a = true →
            dis'.addrmap.hasFlagBit a 0 = true)) ∧
        (∀ a, (∀ bb ∈ newQ, a ≠ bb.start ∧ (∀ ins ∈ bb.insns, a ≠ ins.start) ∧
            ¬(bb.start ≤ a ∧ a < bb.end_)) →
          dis'.addrmap.get_addr_type a = (disInit sec4).addrmap.get_addr_type a))) :=
  ⟨initSectionMap_WF 4096 4, _, _, rfl,
    disasm_iter_records_survivors bin64 oracleRet polKeepFirst (disInit sec4) none _ _
      (initSectionMap_WF 4096 4) rfl⟩

/-- Counterexample to C6 as stated: a selection policy that marks only
the second of two candidates alive and returns a survivor count of one.
The record loop runs over the first entry only, so the alive candidate at
index one is neither appended to the BB list nor enqueued, and the claim
that every candidate whose alive flag is true after bb_select is recorded
is false on the code. -/
theorem select_count_drops_alive_counterexample :
    ∃ decoded,
      decodeScoreAll bin64 oracleRet polSecond (disInit sec4)
        (polSecond.bb_mutate (disInit sec4) none) = Except.ok decoded ∧
      (∃ x y, (polSecond.bb_select (disInit sec4) decoded).1 = [x, y] ∧
        y.alive = true ∧
        store_unsigned (polSecond.bb_select (disInit sec4) decoded).2 = 1 ∧
        disasm_iter bin64 oracleRet polSecond (disInit sec4) none =
          Except.ok (disInit sec4, []) ∧
        (disInit sec4).BBs = []) :=
  ⟨_, rfl, _, _, rfl, rfl, rfl, rfl, rfl⟩
